import Mathlib

/-!
Verification of the chunkpad chunking engine.

This file shallowly embeds the chunking engine of the repository:
the four chunking strategies (fixed-size, heading-aware, paragraph-aware,
sliding-window), the shared overlap-tail helpers, and the HTML block
normalizer, together with models of the JavaScript string primitives they
use (trim, split, regex scans).  The token counter (the tiktoken library)
is external to the repository; every strategy is therefore parameterized
by an arbitrary token counter `countTokens : String → Nat`, and a concrete
executable model `countTokensModel` is provided for evaluation.  The
wall-clock reading `Date.now()` used in chunk ids is modelled by an
explicit parameter `now : Nat`.
-/

/-! ## JavaScript string primitives, modelled at the character level -/

/-- Whitespace characters, as in the JavaScript `\s` character class
(restricted to the ASCII whitespace actually produced by this code base). -/
def isWs (c : Char) : Bool :=
  c = ' ' || c = '\t' || c = '\n' || c = '\r'

/-- Sentence-ending punctuation, the `[.!?]` character class. -/
def isPunct (c : Char) : Bool :=
  c = '.' || c = '!' || c = '?'

/-- Characters treated as parts of a word by the token-counter model. -/
def isWordChar (c : Char) : Bool :=
  c.isAlphanum

/-- The JavaScript `String.prototype.trim`. -/
def trimCh (l : List Char) : List Char :=
  ((l.dropWhile isWs).reverse.dropWhile isWs).reverse

/-- `trim` on strings. -/
def trimJS (s : String) : String :=
  ⟨trimCh s.data⟩

/-- `content.replace(/<[^>]*>/g, '')`: drop every complete `<...>` tag.
A `<` with no later `>` is literal text and is kept.  `pending` holds, in
reverse, the characters of a tag opened by `<` but not yet closed by `>`;
at the end of the input an unclosed tag is literal text. -/
def stripAux : List Char → List Char → List Char
  | [], pending => pending.reverse
  | c :: cs, [] => if c = '<' then stripAux cs [c] else c :: stripAux cs []
  | c :: cs, p :: ps => if c = '>' then stripAux cs [] else stripAux cs (c :: p :: ps)

def stripTagsCh (l : List Char) : List Char :=
  stripAux l []

/-- Tag stripping on strings. -/
def stripTags (s : String) : String :=
  ⟨stripTagsCh s.data⟩

/-- Maximal runs of non-whitespace characters: the matches of `/\S+/g`.
`run` holds the current run in reverse. -/
def nonWsRunsAux : List Char → List Char → List (List Char)
  | [], [] => []
  | [], r :: rs => [(r :: rs).reverse]
  | c :: cs, run =>
    if isWs c then
      match run with
      | [] => nonWsRunsAux cs []
      | r :: rs => (r :: rs).reverse :: nonWsRunsAux cs []
    else nonWsRunsAux cs (c :: run)

def nonWsRuns (l : List Char) : List (List Char) :=
  nonWsRunsAux l []

/-- The JavaScript `text.split(/\s+/)`: the non-whitespace runs, with an
extra empty field at the front (resp. back) when the string starts
(resp. ends) with whitespace, and `[""]` on the empty string. -/
def splitWsJS (s : String) : List String :=
  match s.data with
  | [] => [""]
  | c :: cs =>
    let runs := (nonWsRuns (c :: cs)).map (fun l => (⟨l⟩ : String))
    let front : List String := if isWs c then [""] else []
    let back : List String := if isWs ((c :: cs).getLast (by simp)) then [""] else []
    front ++ runs ++ back

/-- The matches of `/[^.!?]+[.!?]+/g`: maximal sentence fragments (one or
more non-punctuation characters followed by one or more punctuation
characters).  Leading punctuation and a trailing fragment with no
punctuation are not matched (the JS `match` drops them).  `a` holds the
current non-punctuation part in reverse, `b` the punctuation part that
follows it in reverse. -/
def sentAux : List Char → List Char → List Char → List (List Char)
  | [], a, b => if a = [] ∨ b = [] then [] else [a.reverse ++ b.reverse]
  | c :: cs, a, b =>
    if isPunct c then
      if a = [] then sentAux cs [] []
      else sentAux cs a (c :: b)
    else
      if b = [] then sentAux cs (c :: a) []
      else (a.reverse ++ b.reverse) :: sentAux cs [c] []

def sentenceRuns (l : List Char) : List (List Char) :=
  sentAux l [] []

/-- `text.match(/[^.!?]+[.!?]+/g) || [text]` on strings. -/
def sentencesJS (s : String) : List String :=
  match sentenceRuns s.data with
  | [] => [s]
  | l => l.map (fun cs => (⟨cs⟩ : String))

/-- The JavaScript `Array.prototype.join(sep)`. -/
def joinSep (sep : String) : List String → String
  | [] => ""
  | [x] => x
  | x :: y :: rest => x ++ sep ++ joinSep sep (y :: rest)

/-- `arr.slice(-k)` for a non-negative `k`: the last `k` elements, except
that `k = 0` gives the whole array (since `-0 === 0` in JavaScript). -/
def sliceNegJS (k : Nat) (l : List α) : List α :=
  if k = 0 then l else l.drop (l.length - k)

/-- `s.slice(0, n)` on strings. -/
def takeJS (n : Nat) (s : String) : String :=
  ⟨s.data.take n⟩

/-- `/[.!?]$/.test(token)`. -/
def endsWithPunct (s : String) : Bool :=
  match s.data.getLast? with
  | some c => isPunct c
  | none => false

/-- `text.split(/\n\n+/)`: split on runs of two or more newlines.  `cur`
holds the current field in reverse and `k` counts pending newlines not
yet classified as separator or field content. -/
def splitNNAux : List Char → List Char → Nat → List (List Char)
  | [], cur, k =>
    if k ≥ 2 then [cur.reverse, []]
    else [cur.reverse ++ List.replicate k '\n']
  | c :: cs, cur, k =>
    if c = '\n' then splitNNAux cs cur (k + 1)
    else
      if k ≥ 2 then cur.reverse :: splitNNAux cs [c] 0
      else splitNNAux cs (c :: (List.replicate k '\n' ++ cur)) 0

def splitNN (l : List Char) : List (List Char) :=
  splitNNAux l [] 0

/-- `text.split(/\n\n+/)` on strings. -/
def splitNNJS (s : String) : List String :=
  (splitNN s.data).map (fun l => (⟨l⟩ : String))

/-- Scan of the case-insensitive regex `<h[1-6][^>]*>([^<]+)<\/h[1-6]>`
attempted at the head of the character list; returns the capture group. -/
def tryHeadingAt : List Char → Option (List Char)
  | '<' :: h :: d :: rest =>
    if (h = 'h' || h = 'H') && ('1' ≤ d && d ≤ '6') then
      match rest.dropWhile (fun x => x ≠ '>') with
      | '>' :: rest2 =>
        let cap := rest2.takeWhile (fun x => x ≠ '<')
        if cap = [] then none
        else
          match rest2.dropWhile (fun x => x ≠ '<') with
          | '<' :: '/' :: h2 :: d2 :: '>' :: _ =>
            if (h2 = 'h' || h2 = 'H') && ('1' ≤ d2 && d2 ≤ '6') then some cap else none
          | _ => none
      | _ => none
    else none
  | _ => none

/-- First match of the heading-title regex anywhere in the string:
`content.match(/<h[1-6][^>]*>([^<]+)<\/h[1-6]>/i)`, capture group 1. -/
def findHeadingCapture : List Char → Option (List Char)
  | [] => none
  | c :: cs =>
    match tryHeadingAt (c :: cs) with
    | some cap => some cap
    | none => findHeadingCapture cs

/-! ## A concrete token-counter model

The repository counts tokens with the external tiktoken library
(`encoding_for_model("gpt-3.5-turbo")`), which is not part of this
repository.  Modelled from the spec: the Token Counter is a pure function
`text → non-negative integer` using a fixed subword encoding.  The model
below counts one token per maximal alphanumeric run and one token per
other non-whitespace character, which reproduces the one property the
claims depend on: markup characters contribute tokens of their own. -/

def countTokensAux : List Char → Bool → Nat
  | [], _ => 0
  | c :: cs, inWord =>
    if isWs c then countTokensAux cs false
    else if isWordChar c then (if inWord then 0 else 1) + countTokensAux cs true
    else 1 + countTokensAux cs false

def countTokensCh (l : List Char) : Nat :=
  countTokensAux l false

/-- The concrete token-counter model used for evaluation. -/
def countTokensModel (s : String) : Nat :=
  countTokensCh s.data

/-! ## Data model (src/types/document.ts, src/types/index.ts) -/

/-- The `DocumentBlockType` union. -/
inductive DocumentBlockType where
  | heading
  | paragraph
  | listItem
  | table
  | code
  | slideTitle
  | slideNote
  | pageBreak
  | other
deriving DecidableEq, Repr

/-- The optional `metadata` record carried by a `DocumentBlock`. -/
structure BlockMetadata where
  source : Option String := none
  page : Option Int := none
  slide : Option Int := none
deriving DecidableEq, Repr

/-- `DocumentBlock`. -/
structure DocumentBlock where
  type : DocumentBlockType
  level : Option Nat := none
  text : String
  html : String
  metadata : Option BlockMetadata := none
deriving DecidableEq, Repr

/-- `DocumentStructure`. -/
structure DocumentStructure where
  blocks : List DocumentBlock
  sourceFile : String
  sourceType : String
deriving DecidableEq, Repr

/-- `ChunkingOptions`: a flat record of optional fields; `none` models an
absent key. -/
structure ChunkingOptions where
  maxTokens : Option Nat := none
  overlapTokens : Option Nat := none
  minChunkTokens : Option Nat := none
  preserveStructure : Option Bool := none
  subChunkingStrategy : Option String := none
  minParagraphsPerChunk : Option Nat := none
  maxParagraphsPerChunk : Option Nat := none
  preserveParagraphBoundaries : Option Bool := none
  windowSize : Option Nat := none
  overlapSize : Option Nat := none
  preserveWordBoundaries : Option Bool := none
  preserveSentenceBoundaries : Option Bool := none
deriving DecidableEq, Repr

/-- The JavaScript object spread `{ ...defaults, ...options }`: a field of
`options`, when present, overrides the default. -/
def mergeOptions (defaults options : ChunkingOptions) : ChunkingOptions where
  maxTokens := options.maxTokens.orElse fun _ => defaults.maxTokens
  overlapTokens := options.overlapTokens.orElse fun _ => defaults.overlapTokens
  minChunkTokens := options.minChunkTokens.orElse fun _ => defaults.minChunkTokens
  preserveStructure := options.preserveStructure.orElse fun _ => defaults.preserveStructure
  subChunkingStrategy := options.subChunkingStrategy.orElse fun _ => defaults.subChunkingStrategy
  minParagraphsPerChunk := options.minParagraphsPerChunk.orElse fun _ => defaults.minParagraphsPerChunk
  maxParagraphsPerChunk := options.maxParagraphsPerChunk.orElse fun _ => defaults.maxParagraphsPerChunk
  preserveParagraphBoundaries :=
    options.preserveParagraphBoundaries.orElse fun _ => defaults.preserveParagraphBoundaries
  windowSize := options.windowSize.orElse fun _ => defaults.windowSize
  overlapSize := options.overlapSize.orElse fun _ => defaults.overlapSize
  preserveWordBoundaries := options.preserveWordBoundaries.orElse fun _ => defaults.preserveWordBoundaries
  preserveSentenceBoundaries :=
    options.preserveSentenceBoundaries.orElse fun _ => defaults.preserveSentenceBoundaries

/-- Caller-supplied global metadata (`GlobalMetadata`): a string-to-string
record.  The strategies receive it but never read it. -/
structure GlobalMetadata where
  entries : List (String × String) := []
deriving DecidableEq, Repr

/-- The metadata record attached to an output `Chunk`; optional fields
model keys a given strategy does not set. -/
structure ChunkMetadata where
  strategy : String
  strategyOptions : ChunkingOptions
  sectionPath : Option (List String) := none
  sourceFile : String
  page : Option Int := none
  slide : Option Int := none
  windowIndex : Option Nat := none
deriving DecidableEq, Repr

/-- The output `Chunk`. -/
structure Chunk where
  id : String
  title : String
  preview : String
  content : String
  tokens : Nat
  metadata : ChunkMetadata
deriving DecidableEq, Repr

instance : Inhabited DocumentBlock :=
  ⟨{ type := .other, text := "", html := "" }⟩

instance : Inhabited Chunk :=
  ⟨{ id := "", title := "", preview := "", content := "", tokens := 0,
     metadata := { strategy := "", strategyOptions := {}, sourceFile := "" } }⟩

/-- `content.slice(0, 100) || "Empty content..."`, shared preview logic. -/
def previewOf (textContent : String) : String :=
  let p := takeJS 100 textContent
  if p = "" then "Empty content..." else p

/-! ## Fixed-size strategy (strategies/fixed-size.ts) -/

namespace FixedSizeStrategy

/-- The strategy's `id` field. -/
def idStr : String := "fixed-size"

/-- The strategy's published `defaultOptions`. -/
def defaultOptions : ChunkingOptions :=
  { maxTokens := some 1000, overlapTokens := some 150, preserveStructure := some true }

variable (countTokens : String → Nat) (now : Nat)

/-- `FixedSizeStrategy.createChunk`; `now` models the `Date.now()` read. -/
def createChunk (content : String) (number : Nat) (struct : DocumentStructure)
    (options : ChunkingOptions) : Chunk :=
  let tokens := countTokens content
  let textContent := trimJS (stripTags content)
  let preview := previewOf textContent
  let title :=
    match findHeadingCapture content.data with
    | some cap => "Chunk " ++ toString number ++ ": " ++ (⟨cap⟩ : String)
    | none => "Chunk " ++ toString number ++ ": Section"
  { id := "chunk-" ++ toString number ++ "-" ++ toString now
    title := title
    preview := preview
    content := content
    tokens := tokens
    metadata :=
      { strategy := idStr
        strategyOptions := options
        sourceFile := struct.sourceFile } }

/-- The inner `for (const sentence of sentences)` loop of `chunk`, packing
sentence fragments of an oversized block.  Returns the produced chunks, the
leftover sentence buffer with its token count, and the next chunk number. -/
def sentenceLoop (maxTokens : Nat) (struct : DocumentStructure) (opts : ChunkingOptions) :
    List String → String → Nat → Nat → List Chunk → List Chunk × String × Nat × Nat
  | [], buf, tok, n, chunks => (chunks, buf, tok, n)
  | s :: rest, buf, tok, n, chunks =>
    let tokens := countTokens s
    if tok + tokens > maxTokens ∧ buf ≠ "" then
      sentenceLoop maxTokens struct opts rest s tokens (n + 1)
        (chunks ++ [createChunk countTokens now buf n struct opts])
    else
      sentenceLoop maxTokens struct opts rest
        (buf ++ (if buf ≠ "" then " " else "") ++ s) (tok + tokens) n chunks

/-- The main `for (let i = 0; ...)` loop of `FixedSizeStrategy.chunk`,
with state `(currentChunk, currentTokens, chunkNumber, chunks)`. -/
def chunkLoop (maxTokens overlapTokens : Nat) (struct : DocumentStructure)
    (opts : ChunkingOptions) :
    List String → String → Nat → Nat → List Chunk → List Chunk
  | [], currentChunk, _, chunkNumber, chunks =>
    if trimJS currentChunk ≠ "" then
      chunks ++ [createChunk countTokens now currentChunk chunkNumber struct opts]
    else chunks
  | b :: rest, currentChunk, currentTokens, chunkNumber, chunks =>
    let block := trimJS b
    let blockTokens := countTokens block
    if blockTokens > maxTokens then
      let flushed :=
        if currentChunk ≠ "" then
          (chunks ++ [createChunk countTokens now currentChunk chunkNumber struct opts],
            chunkNumber + 1)
        else (chunks, chunkNumber)
      let textContent := stripTags block
      let sentences := sentencesJS textContent
      if sentences.length > 1 then
        let packed :=
          sentenceLoop countTokens now maxTokens struct opts sentences "" 0 flushed.2 flushed.1
        let leftover := if packed.2.1 ≠ "" then (packed.2.1, packed.2.2.1) else ("", 0)
        chunkLoop maxTokens overlapTokens struct opts rest leftover.1 leftover.2
          packed.2.2.2 packed.1
      else
        chunkLoop maxTokens overlapTokens struct opts rest "" 0 (flushed.2 + 1)
          (flushed.1 ++ [createChunk countTokens now block flushed.2 struct opts])
    else
      if currentTokens + blockTokens > maxTokens ∧ currentChunk ≠ "" then
        let chunks1 := chunks ++ [createChunk countTokens now currentChunk chunkNumber struct opts]
        let words := splitWsJS currentChunk
        let overlapText := joinSep " " (sliceNegJS (overlapTokens / 2) words)
        let cur1 := overlapText ++ "\n" ++ block
        chunkLoop maxTokens overlapTokens struct opts rest cur1 (countTokens cur1)
          (chunkNumber + 1) chunks1
      else
        chunkLoop maxTokens overlapTokens struct opts rest
          (currentChunk ++ (if currentChunk ≠ "" then "\n" else "") ++ block)
          (currentTokens + blockTokens) chunkNumber chunks

/-- `FixedSizeStrategy.chunk`. -/
def chunk (struct : DocumentStructure) (options : ChunkingOptions)
    (globalMetadata : GlobalMetadata) : List Chunk :=
  let opts := mergeOptions defaultOptions options
  let maxTokens := opts.maxTokens.getD 1000
  let overlapTokens := opts.overlapTokens.getD 150
  let htmlBlocks := struct.blocks.map (fun b => b.html)
  chunkLoop countTokens now maxTokens overlapTokens struct opts htmlBlocks "" 0 1 []

end FixedSizeStrategy

/-! ## Backward-greedy overlap tail (shared shape of `getOverlapBlocks`,
`getOverlapSentences`, `getOverlapWords` in heading-aware.ts and
paragraph-aware.ts) -/

/-- The backward loop: walking from the end of the (already reversed)
list, keep items while the running token count stays within the budget. -/
def overlapScan (tok : α → Nat) (budget : Nat) : List α → Nat → List α
  | [], _ => []
  | x :: rest, acc =>
    if acc + tok x ≤ budget then x :: overlapScan tok budget rest (acc + tok x) else []

/-- The full overlap-tail computation: the backward-greedy suffix within
budget, or the single last item when that suffix is empty. -/
def overlapTail (tok : α → Nat) (budget : Nat) (items : List α) : List α :=
  let r := (overlapScan tok budget items.reverse 0).reverse
  if r.length > 0 then r
  else
    match items.getLast? with
    | some x => [x]
    | none => []

/-! ## Heading-aware strategy (strategies/heading-aware.ts) -/

namespace HeadingAwareStrategy

/-- The transient `Section` record. -/
structure Section where
  heading : Option DocumentBlock
  blocks : List DocumentBlock
  level : Nat
  sectionPath : List String
deriving DecidableEq, Repr

/-- The strategy's `id` field. -/
def idStr : String := "heading-aware"

/-- The strategy's published `defaultOptions`. -/
def defaultOptions : ChunkingOptions :=
  { maxTokens := some 1000, overlapTokens := some 150, minChunkTokens := some 200,
    preserveStructure := some true, subChunkingStrategy := some "paragraph" }

/-- `while (headingStack.length > 0 && (top.block.level ?? 1) >= level) pop`;
the stack has its top at the end of the list. -/
def popStack (level : Nat) (stack : List (DocumentBlock × List String)) :
    List (DocumentBlock × List String) :=
  (stack.reverse.dropWhile (fun e => decide (e.1.level.getD 1 ≥ level))).reverse

/-- Close the current section: it is recorded only if it has content. -/
def closeSection (cur : Option Section) (secs : List Section) : List Section :=
  match cur with
  | some s => if s.blocks.length > 0 then secs ++ [s] else secs
  | none => secs

/-- The loop of `HeadingAwareStrategy.buildSections`. -/
def buildSectionsLoop :
    List DocumentBlock → List (DocumentBlock × List String) → Option Section →
    List Section → List Section
  | [], _, cur, secs => closeSection cur secs
  | b :: rest, stack, cur, secs =>
    if b.type = .heading ∨ b.type = .slideTitle then
      let level := b.level.getD 1
      let stack1 := popStack level stack
      let sectionPath := stack1.map (fun h => h.1.text) ++ [b.text]
      let secs1 := closeSection cur secs
      buildSectionsLoop rest (stack1 ++ [(b, sectionPath)])
        (some { heading := some b, blocks := [], level := level, sectionPath := sectionPath })
        secs1
    else
      let cur1 :=
        match cur with
        | some s => some { s with blocks := s.blocks ++ [b] }
        | none => some { heading := none, blocks := [b], level := 0, sectionPath := [] }
      buildSectionsLoop rest stack cur1 secs

/-- `HeadingAwareStrategy.buildSections`. -/
def buildSections (blocks : List DocumentBlock) : List Section :=
  buildSectionsLoop blocks [] none []

/-- `buildSectionContent`. -/
def buildSectionContent (s : Section) : String :=
  let parts :=
    (match s.heading with
     | some h => [h.html]
     | none => []) ++ s.blocks.map (fun b => b.html)
  joinSep "\n" parts

/-- `buildContentFromBlocks`. -/
def buildContentFromBlocks (blocks : List DocumentBlock) : String :=
  joinSep "\n" (blocks.map (fun b => b.html))

variable (countTokens : String → Nat) (now : Nat)

/-- `HeadingAwareStrategy.getOverlapBlocks`. -/
def getOverlapBlocks (blocks : List DocumentBlock) (overlapTokens : Nat) :
    List DocumentBlock :=
  overlapTail (fun b => countTokens b.html) overlapTokens blocks

/-- `HeadingAwareStrategy.getOverlapSentences`. -/
def getOverlapSentences (sentences : List String) (overlapTokens : Nat) : List String :=
  overlapTail countTokens overlapTokens sentences

/-- `HeadingAwareStrategy.createChunk`. -/
def createChunk (content : String) (number : Nat) (sectionPath : List String)
    (s : Section) (struct : DocumentStructure) (options : ChunkingOptions) : Chunk :=
  let tokens := countTokens content
  let textContent := trimJS (stripTags content)
  let preview := previewOf textContent
  let title :=
    if sectionPath.length > 0 then
      "Chunk " ++ toString number ++ ": " ++ joinSep " > " sectionPath
    else
      match s.heading with
      | some h => "Chunk " ++ toString number ++ ": " ++ h.text
      | none => "Chunk " ++ toString number ++ ": Section"
  let firstBlock :=
    match s.heading with
    | some h => some h
    | none => s.blocks.head?
  { id := "chunk-" ++ toString number ++ "-" ++ toString now
    title := title
    preview := preview
    content := content
    tokens := tokens
    metadata :=
      { strategy := idStr
        strategyOptions := options
        sectionPath := some sectionPath
        sourceFile := struct.sourceFile
        page := firstBlock.bind fun b => b.metadata.bind fun m => m.page
        slide := firstBlock.bind fun b => b.metadata.bind fun m => m.slide } }

/-- The block loop of `chunkSectionByParagraphs`, with state
`(currentChunkBlocks, currentTokens, chunkNumber, chunks)`. -/
def paraLoop (maxTokens overlapTokens : Nat) (s : Section) (struct : DocumentStructure)
    (options : ChunkingOptions) :
    List DocumentBlock → List DocumentBlock → Nat → Nat → List Chunk → List Chunk
  | [], cur, _, n, chunks =>
    if cur.length > 0 then
      chunks ++ [createChunk countTokens now (buildContentFromBlocks cur) n s.sectionPath
        s struct options]
    else chunks
  | b :: rest, cur, tok, n, chunks =>
    let blockTokens := countTokens b.html
    if tok + blockTokens > maxTokens ∧ cur.length > 0 then
      let chunks1 := chunks ++ [createChunk countTokens now (buildContentFromBlocks cur) n
        s.sectionPath s struct options]
      if overlapTokens > 0 ∧ cur.length > 0 then
        let overlapBlocks := getOverlapBlocks countTokens cur overlapTokens
        let cur1 := overlapBlocks ++ [b]
        paraLoop maxTokens overlapTokens s struct options rest cur1
          (countTokens (buildContentFromBlocks cur1)) (n + 1) chunks1
      else
        paraLoop maxTokens overlapTokens s struct options rest [b] blockTokens (n + 1) chunks1
    else
      paraLoop maxTokens overlapTokens s struct options rest (cur ++ [b])
        (tok + blockTokens) n chunks

/-- `chunkSectionByParagraphs`. -/
def chunkSectionByParagraphs (maxTokens overlapTokens startChunkNumber : Nat)
    (struct : DocumentStructure) (options : ChunkingOptions) (s : Section) : List Chunk :=
  let init : List DocumentBlock × Nat :=
    match s.heading with
    | some h => ([h], countTokens h.html)
    | none => ([], 0)
  paraLoop countTokens now maxTokens overlapTokens s struct options s.blocks init.1 init.2
    startChunkNumber []

/-- One entry of the sentence stream built by `chunkSectionBySentences`. -/
structure SentenceItem where
  text : String
  html : String
  block : DocumentBlock
deriving DecidableEq, Repr

/-- The sentence stream of a section. -/
def sectionSentences (s : Section) : List SentenceItem :=
  s.blocks.flatMap fun b =>
    (sentencesJS b.text).map fun st =>
      { text := trimJS st, html := "<p>" ++ trimJS st ++ "</p>", block := b }

/-- The sentence loop of `chunkSectionBySentences`, with state
`(currentChunkContent, currentTokens, chunkNumber, chunks)`. -/
def sentLoop (maxTokens overlapTokens : Nat) (s : Section) (struct : DocumentStructure)
    (options : ChunkingOptions) :
    List SentenceItem → List String → Nat → Nat → List Chunk → List Chunk
  | [], content, _, n, chunks =>
    if content.length > 0 then
      chunks ++ [createChunk countTokens now (joinSep "\n" content) n s.sectionPath
        s struct options]
    else chunks
  | snt :: rest, content, tok, n, chunks =>
    let sentenceTokens := countTokens snt.text
    if tok + sentenceTokens > maxTokens ∧ content.length > 0 then
      let chunks1 := chunks ++ [createChunk countTokens now (joinSep "\n" content) n
        s.sectionPath s struct options]
      if overlapTokens > 0 then
        let ov := getOverlapSentences countTokens content overlapTokens
        let content1 := ov ++ [snt.html]
        sentLoop maxTokens overlapTokens s struct options rest content1
          (countTokens (joinSep "\n" content1)) (n + 1) chunks1
      else
        sentLoop maxTokens overlapTokens s struct options rest [snt.html] sentenceTokens
          (n + 1) chunks1
    else
      sentLoop maxTokens overlapTokens s struct options rest (content ++ [snt.html])
        (tok + sentenceTokens) n chunks

/-- `chunkSectionBySentences`. -/
def chunkSectionBySentences (maxTokens overlapTokens startChunkNumber : Nat)
    (struct : DocumentStructure) (options : ChunkingOptions) (s : Section) : List Chunk :=
  let init : List String × Nat :=
    match s.heading with
    | some h => ([h.html], countTokens h.html)
    | none => ([], 0)
  sentLoop countTokens now maxTokens overlapTokens s struct options (sectionSentences s)
    init.1 init.2 startChunkNumber []

/-- `HeadingAwareStrategy.chunkSection`.  The `minChunkTokens` parameter is
received but never read, as in the source. -/
def chunkSection (maxTokens overlapTokens minChunkTokens : Nat)
    (subChunkingStrategy : String) (startChunkNumber : Nat) (struct : DocumentStructure)
    (options : ChunkingOptions) (s : Section) : List Chunk :=
  let sectionText := joinSep " " (s.blocks.map (fun b => b.text))
  let sectionTokens := countTokens sectionText
  if sectionTokens ≤ maxTokens then
    [createChunk countTokens now (buildSectionContent s) startChunkNumber s.sectionPath
      s struct options]
  else if subChunkingStrategy = "sentence" then
    chunkSectionBySentences countTokens now maxTokens overlapTokens startChunkNumber
      struct options s
  else
    chunkSectionByParagraphs countTokens now maxTokens overlapTokens startChunkNumber
      struct options s

/-- The `for (const section of sections)` loop of `chunk`, advancing the
chunk number by the number of chunks each section produced. -/
def sectionLoop (maxTokens overlapTokens minChunkTokens : Nat)
    (subChunkingStrategy : String) (struct : DocumentStructure)
    (options : ChunkingOptions) :
    List Section → Nat → List Chunk → List Chunk
  | [], _, acc => acc
  | s :: rest, n, acc =>
    let cs := chunkSection countTokens now maxTokens overlapTokens minChunkTokens
      subChunkingStrategy n struct options s
    sectionLoop maxTokens overlapTokens minChunkTokens subChunkingStrategy struct options
      rest (n + cs.length) (acc ++ cs)

/-- The block loop of `fallbackToParagraphChunking`: simple greedy packing
that skips headings and seeds no overlap. -/
def fallbackLoop (maxTokens : Nat) (struct : DocumentStructure)
    (options : ChunkingOptions) :
    List DocumentBlock → List DocumentBlock → Nat → Nat → List Chunk → List Chunk
  | [], cur, _, n, chunks =>
    if cur.length > 0 then
      chunks ++ [createChunk countTokens now (joinSep "\n" (cur.map (fun b => b.html))) n []
        { heading := none, blocks := cur, level := 0, sectionPath := [] } struct options]
    else chunks
  | b :: rest, cur, tok, n, chunks =>
    if b.type = .heading ∨ b.type = .slideTitle then
      fallbackLoop maxTokens struct options rest cur tok n chunks
    else
      let blockTokens := countTokens b.html
      if tok + blockTokens > maxTokens ∧ cur.length > 0 then
        let chunks1 := chunks ++ [createChunk countTokens now
          (joinSep "\n" (cur.map (fun b => b.html))) n []
          { heading := none, blocks := cur, level := 0, sectionPath := [] } struct options]
        fallbackLoop maxTokens struct options rest [b] blockTokens (n + 1) chunks1
      else
        fallbackLoop maxTokens struct options rest (cur ++ [b]) (tok + blockTokens) n chunks

/-- `HeadingAwareStrategy.fallbackToParagraphChunking`. -/
def fallbackToParagraphChunking (struct : DocumentStructure) (options : ChunkingOptions)
    (globalMetadata : GlobalMetadata) : List Chunk :=
  let maxTokens := options.maxTokens.getD 1000
  fallbackLoop countTokens now maxTokens struct options struct.blocks [] 0 1 []

/-- `HeadingAwareStrategy.chunk`. -/
def chunk (struct : DocumentStructure) (options : ChunkingOptions)
    (globalMetadata : GlobalMetadata) : List Chunk :=
  let opts := mergeOptions defaultOptions options
  let maxTokens := opts.maxTokens.getD 1000
  let overlapTokens := opts.overlapTokens.getD 150
  let minChunkTokens := opts.minChunkTokens.getD 200
  let subChunkingStrategy := opts.subChunkingStrategy.getD "paragraph"
  let sections := buildSections struct.blocks
  if sections.length = 0 ∨ sections.all (fun s => s.heading = none) then
    fallbackToParagraphChunking countTokens now struct opts globalMetadata
  else
    sectionLoop countTokens now maxTokens overlapTokens minChunkTokens subChunkingStrategy
      struct opts sections 1 []

end HeadingAwareStrategy

/-! ## Paragraph-aware strategy (strategies/paragraph-aware.ts) -/

namespace ParagraphAwareStrategy

/-- The strategy's `id` field. -/
def idStr : String := "paragraph-aware"

/-- The strategy's published `defaultOptions`. -/
def defaultOptions : ChunkingOptions :=
  { maxTokens := some 1000, overlapTokens := some 150, minParagraphsPerChunk := some 1,
    maxParagraphsPerChunk := some 10, preserveParagraphBoundaries := some true }

/-- `buildContentFromBlocks`. -/
def buildContentFromBlocks (blocks : List DocumentBlock) : String :=
  joinSep "\n" (blocks.map (fun b => b.html))

variable (countTokens : String → Nat) (now : Nat)

/-- `ParagraphAwareStrategy.getOverlapBlocks`. -/
def getOverlapBlocks (blocks : List DocumentBlock) (overlapTokens : Nat) :
    List DocumentBlock :=
  overlapTail (fun b => countTokens b.html) overlapTokens blocks

/-- `ParagraphAwareStrategy.getOverlapSentences`. -/
def getOverlapSentences (sentences : List String) (overlapTokens : Nat) : List String :=
  overlapTail countTokens overlapTokens sentences

/-- `ParagraphAwareStrategy.getOverlapWords`: each word is costed as
`countTokens(word + " ")`. -/
def getOverlapWords (words : List String) (overlapTokens : Nat) : List String :=
  overlapTail (fun w => countTokens (w ++ " ")) overlapTokens words

/-- `ParagraphAwareStrategy.createChunkFromContent`. -/
def createChunkFromContent (content : String) (number : Nat)
    (struct : DocumentStructure) (firstBlock : DocumentBlock)
    (options : ChunkingOptions) : Chunk :=
  let tokens := countTokens content
  let textContent := trimJS (stripTags content)
  let preview := previewOf textContent
  let title :=
    if firstBlock.type = .heading ∨ firstBlock.type = .slideTitle then
      "Chunk " ++ toString number ++ ": " ++ firstBlock.text
    else
      let firstWords := joinSep " " ((splitWsJS textContent).take 5)
      "Chunk " ++ toString number ++ ": " ++ firstWords ++
        (if textContent.length > firstWords.length then "..." else "")
  { id := "chunk-" ++ toString number ++ "-" ++ toString now
    title := title
    preview := preview
    content := content
    tokens := tokens
    metadata :=
      { strategy := idStr
        strategyOptions := options
        sourceFile := struct.sourceFile
        page := firstBlock.metadata.bind fun m => m.page
        slide := firstBlock.metadata.bind fun m => m.slide } }

/-- `ParagraphAwareStrategy.createChunk` (the block-list form); `blocks[0]`
is modelled by `headI` (the call sites always pass a non-empty list). -/
def createChunk (blocks : List DocumentBlock) (number : Nat)
    (struct : DocumentStructure) (options : ChunkingOptions) : Chunk :=
  createChunkFromContent countTokens now (buildContentFromBlocks blocks) number struct
    blocks.headI options

/-- The sentence loop of `splitOversizedBlock`, with state
`(currentSentences, currentTokens, chunkNumber, chunks)`. -/
def sentSplitLoop (maxTokens overlapTokens : Nat) (blk : DocumentBlock)
    (struct : DocumentStructure) (options : ChunkingOptions) :
    List String → List String → Nat → Nat → List Chunk → List Chunk
  | [], curSents, _, n, chunks =>
    if curSents.length > 0 then
      chunks ++ [createChunkFromContent countTokens now
        (joinSep "\n" (curSents.map fun st => "<p>" ++ trimJS st ++ "</p>")) n struct blk options]
    else chunks
  | snt :: rest, curSents, tok, n, chunks =>
    let sentenceTokens := countTokens snt
    if tok + sentenceTokens > maxTokens ∧ curSents.length > 0 then
      let chunks1 := chunks ++ [createChunkFromContent countTokens now
        (joinSep "\n" (curSents.map fun st => "<p>" ++ trimJS st ++ "</p>")) n struct blk options]
      if overlapTokens > 0 then
        let ov := getOverlapSentences countTokens curSents overlapTokens
        let cur1 := ov ++ [snt]
        sentSplitLoop maxTokens overlapTokens blk struct options rest cur1
          (countTokens (joinSep " " cur1)) (n + 1) chunks1
      else
        sentSplitLoop maxTokens overlapTokens blk struct options rest [snt] sentenceTokens
          (n + 1) chunks1
    else
      sentSplitLoop maxTokens overlapTokens blk struct options rest (curSents ++ [snt])
        (tok + sentenceTokens) n chunks

/-- The word loop of `splitByTokens`, with state
`(currentWords, currentTokens, chunkNumber, chunks)`. -/
def wordLoop (maxTokens overlapTokens : Nat) (blk : DocumentBlock)
    (struct : DocumentStructure) (options : ChunkingOptions) :
    List String → List String → Nat → Nat → List Chunk → List Chunk
  | [], curWords, _, n, chunks =>
    if curWords.length > 0 then
      chunks ++ [createChunkFromContent countTokens now
        ("<p>" ++ joinSep " " curWords ++ "</p>") n struct blk options]
    else chunks
  | w :: rest, curWords, tok, n, chunks =>
    let wordTokens := countTokens (w ++ " ")
    if tok + wordTokens > maxTokens ∧ curWords.length > 0 then
      let chunks1 := chunks ++ [createChunkFromContent countTokens now
        ("<p>" ++ joinSep " " curWords ++ "</p>") n struct blk options]
      if overlapTokens > 0 then
        let ov := getOverlapWords countTokens curWords overlapTokens
        let cur1 := ov ++ [w]
        wordLoop maxTokens overlapTokens blk struct options rest cur1
          (countTokens (joinSep " " cur1)) (n + 1) chunks1
      else
        wordLoop maxTokens overlapTokens blk struct options rest [w] wordTokens (n + 1) chunks1
    else
      wordLoop maxTokens overlapTokens blk struct options rest (curWords ++ [w])
        (tok + wordTokens) n chunks

/-- `ParagraphAwareStrategy.splitByTokens`. -/
def splitByTokens (blk : DocumentBlock) (maxTokens overlapTokens startChunkNumber : Nat)
    (struct : DocumentStructure) (options : ChunkingOptions) : List Chunk :=
  wordLoop countTokens now maxTokens overlapTokens blk struct options
    (splitWsJS blk.text) [] 0 startChunkNumber []

/-- `ParagraphAwareStrategy.splitOversizedBlock`. -/
def splitOversizedBlock (blk : DocumentBlock) (maxTokens overlapTokens startChunkNumber : Nat)
    (struct : DocumentStructure) (options : ChunkingOptions) : List Chunk :=
  let sentences := sentencesJS blk.text
  if sentences.length > 1 then
    sentSplitLoop countTokens now maxTokens overlapTokens blk struct options sentences
      [] 0 startChunkNumber []
  else
    splitByTokens countTokens now blk maxTokens overlapTokens startChunkNumber struct options

/-- The main block loop of `ParagraphAwareStrategy.chunk`, with state
`(currentChunkBlocks, currentTokens, chunkNumber, chunks)`. -/
def chunkLoop (maxTokens overlapTokens minParagraphs maxParagraphs : Nat)
    (struct : DocumentStructure) (options : ChunkingOptions) :
    List DocumentBlock → List DocumentBlock → Nat → Nat → List Chunk → List Chunk
  | [], cur, _, n, chunks =>
    if cur.length > 0 then chunks ++ [createChunk countTokens now cur n struct options]
    else chunks
  | b :: rest, cur, tok, n, chunks =>
    let blockTokens := countTokens b.html
    if blockTokens > maxTokens then
      let flushed :=
        if cur.length > 0 then
          (chunks ++ [createChunk countTokens now cur n struct options], n + 1)
        else (chunks, n)
      let subChunks := splitOversizedBlock countTokens now b maxTokens overlapTokens
        flushed.2 struct options
      chunkLoop maxTokens overlapTokens minParagraphs maxParagraphs struct options rest
        [] 0 (flushed.2 + subChunks.length) (flushed.1 ++ subChunks)
    else
      let wouldExceedTokens := tok + blockTokens > maxTokens
      let wouldExceedParagraphs := cur.length ≥ maxParagraphs
      if (wouldExceedTokens ∨ wouldExceedParagraphs) ∧ cur.length ≥ minParagraphs then
        let chunks1 := chunks ++ [createChunk countTokens now cur n struct options]
        if overlapTokens > 0 ∧ cur.length > 0 then
          let ov := getOverlapBlocks countTokens cur overlapTokens
          let cur1 := ov ++ [b]
          chunkLoop maxTokens overlapTokens minParagraphs maxParagraphs struct options rest
            cur1 (countTokens (buildContentFromBlocks cur1)) (n + 1) chunks1
        else
          chunkLoop maxTokens overlapTokens minParagraphs maxParagraphs struct options rest
            [b] blockTokens (n + 1) chunks1
      else
        chunkLoop maxTokens overlapTokens minParagraphs maxParagraphs struct options rest
          (cur ++ [b]) (tok + blockTokens) n chunks

/-- `ParagraphAwareStrategy.chunk`. -/
def chunk (struct : DocumentStructure) (options : ChunkingOptions)
    (globalMetadata : GlobalMetadata) : List Chunk :=
  let opts := mergeOptions defaultOptions options
  let maxTokens := opts.maxTokens.getD 1000
  let overlapTokens := opts.overlapTokens.getD 150
  let minParagraphs := opts.minParagraphsPerChunk.getD 1
  let maxParagraphs := opts.maxParagraphsPerChunk.getD 10
  let paragraphBlocks := struct.blocks.filter fun b =>
    b.type = .paragraph ∨ b.type = .listItem ∨ b.type = .other
  chunkLoop countTokens now maxTokens overlapTokens minParagraphs maxParagraphs struct opts
    paragraphBlocks [] 0 1 []

end ParagraphAwareStrategy

/-! ## Sliding-window strategy (strategies/sliding-window.ts) -/

namespace SlidingWindowStrategy

/-- The strategy's `id` field. -/
def idStr : String := "sliding-window"

/-- The strategy's published `defaultOptions`. -/
def defaultOptions : ChunkingOptions :=
  { windowSize := some 1000, overlapSize := some 200,
    preserveWordBoundaries := some true, preserveSentenceBoundaries := some false }

/-- `buildTextStream`. -/
def buildTextStream (struct : DocumentStructure) : String :=
  joinSep "\n\n"
    ((struct.blocks.map fun b => b.text).filter fun t => (trimJS t).length > 0)

/-- `buildHTMLFromText`. -/
def buildHTMLFromText (text : String) (struct : DocumentStructure) : String :=
  let paragraphs := (splitNNJS text).filter fun p => (trimJS p).length > 0
  joinSep "\n" (paragraphs.map fun p => "<p>" ++ trimJS p ++ "</p>")

/-- `tokenizeText`: the matches of `/\S+/g`. -/
def tokenizeText (text : String) : List String :=
  (nonWsRuns text.data).map fun l => (⟨l⟩ : String)

/-- `detokenize`. -/
def detokenize (tokens : List String) : String :=
  joinSep " " tokens

/-- The backward scan of `findSentenceBoundary`: looks at indices
`hi - 1, hi - 2, ..., start` for a token ending in punctuation. -/
def scanBack (tokens : List String) (start : Nat) : Nat → Option Nat
  | 0 => none
  | j + 1 =>
    if j < start then none
    else if endsWithPunct (tokens.getD j "") then some (j + 1)
    else scanBack tokens start j

/-- The forward scan of `findSentenceBoundary`, walking the remaining
tokens with their index. -/
def scanFwdAux : Nat → List String → Option Nat
  | _, [] => none
  | i, t :: rest => if endsWithPunct t then some (i + 1) else scanFwdAux (i + 1) rest

def scanFwd (tokens : List String) (i : Nat) : Option Nat :=
  scanFwdAux i (tokens.drop i)

/-- `findSentenceBoundary(tokens, position, start)`: backward from
`position - 1` down to `start`, then forward, else `position` itself. -/
def findSentenceBoundary (tokens : List String) (position start : Nat) : Nat :=
  match scanBack tokens start position with
  | some r => r
  | none =>
    match scanFwd tokens position with
    | some r => r
    | none => position

/-- `findWordBoundary`: the tokens are already whole words, so the
position is returned unchanged. -/
def findWordBoundary (tokens : List String) (position start : Nat) : Nat :=
  position

variable (countTokens : String → Nat) (now : Nat)

/-- `SlidingWindowStrategy.createChunk`. -/
def createChunk (content : String) (number windowIndex : Nat)
    (struct : DocumentStructure) (options : ChunkingOptions) : Chunk :=
  let tokens := countTokens content
  let textContent := trimJS (stripTags content)
  let preview := previewOf textContent
  let firstWords := joinSep " " ((splitWsJS textContent).take 5)
  let title := "Chunk " ++ toString number ++ ": " ++ firstWords ++
    (if textContent.length > firstWords.length then "..." else "")
  let firstBlock := struct.blocks.head?
  { id := "chunk-" ++ toString number ++ "-" ++ toString now
    title := title
    preview := preview
    content := content
    tokens := tokens
    metadata :=
      { strategy := idStr
        strategyOptions := options
        windowIndex := some windowIndex
        sourceFile := struct.sourceFile
        page := firstBlock.bind fun b => b.metadata.bind fun m => m.page
        slide := firstBlock.bind fun b => b.metadata.bind fun m => m.slide } }

/-- The progress-safety check at the bottom of the `while` loop: after
`position += stepSize`, read the last chunk's recorded `windowIndex` and
bump the position just past it when it has not strictly advanced. -/
def lastWindowBump (chunks1 : List Chunk) (posI : Int) : Nat :=
  match chunks1.getLast? with
  | some c =>
    match c.metadata.windowIndex with
    | some lw => if posI ≤ (lw : Int) then lw + 1 else posI.toNat
    | none => posI.toNat
  | none => posI.toNat

/-- The `while (position < tokens.length)` loop of
`SlidingWindowStrategy.chunk`.  After `position += stepSize`, the loop
reads the last chunk's recorded `windowIndex` and bumps the position past
it if it has not strictly advanced. -/
def loop (tokens : List String) (windowSize : Nat) (stepSize : Int)
    (preserveWordBoundaries preserveSentenceBoundaries : Bool)
    (struct : DocumentStructure) (opts : ChunkingOptions) :
    Nat → Nat → List Chunk → List Chunk := fun position chunkNumber chunks =>
  if h : position < tokens.length then
    let windowEnd0 := min (position + windowSize) tokens.length
    let windowEnd :=
      if preserveSentenceBoundaries ∧ windowEnd0 < tokens.length then
        findSentenceBoundary tokens windowEnd0 position
      else if preserveWordBoundaries ∧ windowEnd0 < tokens.length then
        findWordBoundary tokens windowEnd0 position
      else windowEnd0
    let windowTokens := (tokens.drop position).take (windowEnd - position)
    let windowText := detokenize windowTokens
    let windowHTML := buildHTMLFromText windowText struct
    let chunks1 := chunks ++ [createChunk countTokens now windowHTML chunkNumber position
      struct opts]
    let posI : Int := (position : Int) + stepSize
    let position1 : Nat := lastWindowBump chunks1 posI
    loop tokens windowSize stepSize preserveWordBoundaries preserveSentenceBoundaries
      struct opts position1 (chunkNumber + 1) chunks1
  else chunks
termination_by position => tokens.length - position
decreasing_by
  simp only [lastWindowBump, List.getLast?_concat, createChunk]
  split
  · omega
  · omega

/-- `SlidingWindowStrategy.chunk`. -/
def chunk (struct : DocumentStructure) (options : ChunkingOptions)
    (globalMetadata : GlobalMetadata) : List Chunk :=
  let opts := mergeOptions defaultOptions options
  let windowSize := opts.windowSize.getD 1000
  let overlapSize := opts.overlapSize.getD 200
  let preserveWordBoundaries := opts.preserveWordBoundaries.getD true
  let preserveSentenceBoundaries := opts.preserveSentenceBoundaries.getD false
  let textStream := buildTextStream struct
  if textStream.length = 0 then []
  else
    let totalTokens := countTokens textStream
    if totalTokens ≤ windowSize then
      [createChunk countTokens now (buildHTMLFromText textStream struct) 1 0 struct opts]
    else
      let stepSize : Int := (windowSize : Int) - (overlapSize : Int)
      let tokens := tokenizeText textStream
      loop countTokens now tokens windowSize stepSize preserveWordBoundaries
        preserveSentenceBoundaries struct opts 0 1 []

end SlidingWindowStrategy

/-! ## Block normalizer (htmlToDocumentBlocks)

The DOMParser itself is a browser API external to the repository; the
embedding therefore starts from the parsed tree: a node is either an
element (tag, attributes, children) or a text node.  `processElement` and
its sibling iteration are translated from the source; the parent-pointer
chase that computes a list item's nesting level is modelled by threading
the list of (lowercased) ancestor tags. -/

inductive HNode where
  | elem (tag : String) (attrs : List (String × String)) (children : List HNode)
  | text (s : String)

namespace HNode

/-- `getAttribute`, as an `Option` (absent attribute = `none`). -/
def getAttr (attrs : List (String × String)) (name : String) : Option String :=
  (attrs.find? fun p => p.1 = name).map fun p => p.2

/-- `textContent`: the concatenation of all descendant text nodes. -/
def textContent : HNode → String
  | .text s => s
  | .elem _ _ cs => String.join (cs.attach.map fun c => textContent c.1)
decreasing_by
  have := List.sizeOf_lt_of_mem c.2
  cases c
  simp_all
  omega

/-- `getPlainText`'s recursion: like `textContent` but with `script` and
`style` subtrees removed. -/
def plainTextUnder : HNode → String
  | .text s => s
  | .elem tag _ cs =>
    if tag.toLower = "script" ∨ tag.toLower = "style" then ""
    else String.join (cs.attach.map fun c => plainTextUnder c.1)
decreasing_by
  have := List.sizeOf_lt_of_mem c.2
  cases c
  simp_all
  omega

/-- `getTextContent(element)`: `element.textContent?.trim() || ''`. -/
def getTextContent (n : HNode) : String :=
  trimJS (textContent n)

/-- `getPlainText(element)`: remove `script`/`style` descendants (the
clone root itself is kept), then `textContent?.trim() || ''`. -/
def getPlainText : HNode → String
  | .text s => trimJS s
  | .elem _ _ cs => trimJS (String.join (cs.map plainTextUnder))

/-- `element.children`: the element children only. -/
def elemChildren (cs : List HNode) : List HNode :=
  cs.filter fun c =>
    match c with
    | .elem _ _ _ => true
    | .text _ => false

/-- Attribute serialization for the `outerHTML` model. -/
def renderAttrs : List (String × String) → String
  | [] => ""
  | (k, v) :: rest => " " ++ k ++ "=" ++ "\"" ++ v ++ "\"" ++ renderAttrs rest

/-- A model of `outerHTML`: tags and attributes serialized back. -/
def outerHTML : HNode → String
  | .text s => s
  | .elem tag attrs cs =>
    "<" ++ tag ++ renderAttrs attrs ++ ">" ++
      String.join (cs.attach.map fun c => outerHTML c.1) ++ "</" ++ tag ++ ">"
decreasing_by
  have := List.sizeOf_lt_of_mem c.2
  cases c
  simp_all
  omega

end HNode

/-- `/^h[1-6]$/.test(tagName)` on a lowercased tag. -/
def isHeadingTag (t : String) : Bool :=
  match t.data with
  | [h, d] => h = 'h' && ('1' ≤ d && d ≤ '6')
  | _ => false

/-- The heading level: `parseInt(tagName.charAt(1), 10)` for `h1`-`h6`. -/
def headingLevel (t : String) : Nat :=
  match t.data with
  | [_, d] => d.toNat - 48
  | _ => 0

/-- `ul`/`ol` test on a lowercased tag. -/
def isListTag (t : String) : Bool :=
  t = "ul" || t = "ol"

/-- The list-item nesting level computed by the parent-pointer chase:
walk up to the first `ul`/`ol` ancestor, then count the run of
consecutive `ul`/`ol` ancestors from there (at least 1). -/
def liLevel (anc : List String) : Nat :=
  max 1 ((anc.dropWhile fun t => !isListTag t).takeWhile isListTag).length

/-- `parseInt(s, 10)`: leading whitespace, optional sign, leading digits;
`none` models `NaN`. -/
def parseIntJS (s : String) : Option Int :=
  let digitsVal : List Char → Option Nat := fun l =>
    let ds := l.takeWhile Char.isDigit
    if ds = [] then none
    else some (ds.foldl (fun a c => a * 10 + (c.toNat - 48)) 0)
  match s.data.dropWhile isWs with
  | '-' :: rest => (digitsVal rest).map fun n => -(n : Int)
  | '+' :: rest => (digitsVal rest).map fun n => (n : Int)
  | l => (digitsVal l).map fun n => (n : Int)

/-- The sticky page/slide cursor of `htmlToDocumentBlocks`. -/
structure PState where
  currentPage : Option Int := none
  currentSlide : Option Int := none
deriving DecidableEq, Repr

/-- The block emitted for a classified leaf element, shared field layout. -/
def mkNormBlock (ty : DocumentBlockType) (level : Option Nat) (text html : String)
    (sourceType : String) (st : PState) : DocumentBlock :=
  { type := ty, level := level, text := text, html := html,
    metadata := some { source := some sourceType, page := st.currentPage,
                       slide := st.currentSlide } }

mutual

/-- `processElement`, returning the blocks it contributes and the updated
sticky page/slide state.  `anc` is the list of lowercased ancestor tags,
nearest first. -/
def processElement (sourceType : String) (n : HNode) (anc : List String) (st : PState) :
    List DocumentBlock × PState :=
  match n with
  | .text _ => ([], st)
  | .elem tag attrs cs =>
    let tagName := tag.toLower
    if tagName = "div" ∧ (HNode.getAttr attrs "data-source").isSome then
      let source := HNode.getAttr attrs "data-source"
      let pageAttr := HNode.getAttr attrs "data-page"
      let truthyPage := pageAttr.isSome ∧ pageAttr ≠ some ""
      let st1 :=
        if source = some "pdf" ∧ truthyPage then
          { st with currentPage := parseIntJS (pageAttr.getD "") }
        else if source = some "pptx" ∧ truthyPage then
          { st with currentSlide := parseIntJS (pageAttr.getD "") }
        else st
      processChildren sourceType cs (tagName :: anc) st1
    else if isHeadingTag tagName then
      let text := HNode.getTextContent n
      let html := HNode.outerHTML n
      if text ≠ "" then
        ([mkNormBlock (if sourceType = "pptx" then .slideTitle else .heading)
            (some (headingLevel tagName)) text html sourceType st], st)
      else ([], st)
    else if tagName = "p" then
      let text := HNode.getPlainText n
      let html := HNode.outerHTML n
      if text ≠ "" then
        ([mkNormBlock .paragraph none text html sourceType st], st)
      else ([], st)
    else if tagName = "li" then
      let text := HNode.getPlainText n
      let html := HNode.outerHTML n
      let level := liLevel anc
      if text ≠ "" then
        ([mkNormBlock .listItem (some level) text html sourceType st], st)
      else ([], st)
    else if tagName = "table" then
      let text := HNode.getPlainText n
      let html := HNode.outerHTML n
      if text ≠ "" then
        ([mkNormBlock .table none text html sourceType st], st)
      else ([], st)
    else if tagName = "code" ∨ tagName = "pre" then
      let text := HNode.getTextContent n
      let html := HNode.outerHTML n
      if text ≠ "" then
        ([mkNormBlock .code none text html sourceType st], st)
      else ([], st)
    else if tagName = "div" ∨ tagName = "section" ∨ tagName = "blockquote" ∨
        tagName = "article" ∨ tagName = "aside" then
      let text := HNode.getPlainText n
      if text ≠ "" ∧ (HNode.elemChildren cs).length = 0 then
        ([mkNormBlock .other none text (HNode.outerHTML n) sourceType st], st)
      else
        processChildren sourceType cs (tagName :: anc) st
    else
      processChildren sourceType cs (tagName :: anc) st

/-- `Array.from(element.children).forEach(child => processElement(child))`:
iterate the element children in order, threading the sticky state. -/
def processChildren (sourceType : String) (cs : List HNode) (anc : List String)
    (st : PState) : List DocumentBlock × PState :=
  match cs with
  | [] => ([], st)
  | c :: rest =>
    match c with
    | .text _ => processChildren sourceType rest anc st
    | .elem t a k =>
      let r1 := processElement sourceType (.elem t a k) anc st
      let r2 := processChildren sourceType rest anc r1.2
      (r1.1 ++ r2.1, r2.2)

end

/-- `htmlToDocumentBlocks`, starting from the parsed body's children. -/
def htmlToDocumentBlocks (bodyChildren : List HNode) (sourceType sourceFile : String) :
    DocumentStructure :=
  let r := processChildren sourceType bodyChildren ["body"] {}
  { blocks := r.1, sourceFile := sourceFile, sourceType := sourceType }

/-! ## The spec's depth-first walk of the parsed markup, worklist form -/

mutual

/-- An executable node size (the auto-derived `sizeOf` of the nested
inductive is not executable), used as termination measure of the walk. -/
def hnodeSize : HNode → Nat
  | .text _ => 1
  | .elem _ _ cs => 1 + hnodeSizeList cs

def hnodeSizeList : List HNode → Nat
  | [] => 0
  | c :: rest => hnodeSize c + hnodeSizeList rest

end

/-- The total node size of a worklist of frames (termination measure). -/
def framesSize : List (HNode × List String) → Nat
  | [] => 0
  | (n, _) :: rest => hnodeSize n + framesSize rest

theorem framesSizeAppend : ∀ l1 l2 : List (HNode × List String),
    framesSize (l1 ++ l2) = framesSize l1 + framesSize l2 := by
  intro l1 l2
  induction l1 with
  | nil => simp [framesSize]
  | cons f rest ih =>
    obtain ⟨n, a⟩ := f
    show hnodeSize n + framesSize (rest ++ l2)
      = hnodeSize n + framesSize rest + framesSize l2
    rw [ih]
    omega

theorem framesSizeMap (anc : List String) :
    ∀ cs : List HNode, framesSize (cs.map fun c => (c, anc)) = hnodeSizeList cs := by
  intro cs
  induction cs with
  | nil => simp [framesSize, hnodeSizeList]
  | cons c t ih => simp only [List.map_cons, framesSize, hnodeSizeList, ih]

/-- The spec's "depth-first walk of the parsed markup", as an explicit
worklist: each frame pairs a node with its ancestor tag list; a classified
element emits its block before the blocks of the remaining work, and a
container pushes its children in front of the remaining work.  This
definition renders the spec's order invariant and is compared with
`processElement`/`processChildren` below. -/
def walkDFS (sourceType : String) : List (HNode × List String) → PState →
    List DocumentBlock × PState
  | [], st => ([], st)
  | (.text _, _) :: rest, st => walkDFS sourceType rest st
  | (.elem tag attrs cs, anc) :: rest, st =>
    let tagName := tag.toLower
    if tagName = "div" ∧ (HNode.getAttr attrs "data-source").isSome then
      let source := HNode.getAttr attrs "data-source"
      let pageAttr := HNode.getAttr attrs "data-page"
      let truthyPage := pageAttr.isSome ∧ pageAttr ≠ some ""
      let st1 :=
        if source = some "pdf" ∧ truthyPage then
          { st with currentPage := parseIntJS (pageAttr.getD "") }
        else if source = some "pptx" ∧ truthyPage then
          { st with currentSlide := parseIntJS (pageAttr.getD "") }
        else st
      walkDFS sourceType (cs.map (fun c => (c, tagName :: anc)) ++ rest) st1
    else if isHeadingTag tagName then
      let text := HNode.getTextContent (.elem tag attrs cs)
      let html := HNode.outerHTML (.elem tag attrs cs)
      if text ≠ "" then
        let r := walkDFS sourceType rest st
        (mkNormBlock (if sourceType = "pptx" then .slideTitle else .heading)
          (some (headingLevel tagName)) text html sourceType st :: r.1, r.2)
      else walkDFS sourceType rest st
    else if tagName = "p" then
      let text := HNode.getPlainText (.elem tag attrs cs)
      let html := HNode.outerHTML (.elem tag attrs cs)
      if text ≠ "" then
        let r := walkDFS sourceType rest st
        (mkNormBlock .paragraph none text html sourceType st :: r.1, r.2)
      else walkDFS sourceType rest st
    else if tagName = "li" then
      let text := HNode.getPlainText (.elem tag attrs cs)
      let html := HNode.outerHTML (.elem tag attrs cs)
      let level := liLevel anc
      if text ≠ "" then
        let r := walkDFS sourceType rest st
        (mkNormBlock .listItem (some level) text html sourceType st :: r.1, r.2)
      else walkDFS sourceType rest st
    else if tagName = "table" then
      let text := HNode.getPlainText (.elem tag attrs cs)
      let html := HNode.outerHTML (.elem tag attrs cs)
      if text ≠ "" then
        let r := walkDFS sourceType rest st
        (mkNormBlock .table none text html sourceType st :: r.1, r.2)
      else walkDFS sourceType rest st
    else if tagName = "code" ∨ tagName = "pre" then
      let text := HNode.getTextContent (.elem tag attrs cs)
      let html := HNode.outerHTML (.elem tag attrs cs)
      if text ≠ "" then
        let r := walkDFS sourceType rest st
        (mkNormBlock .code none text html sourceType st :: r.1, r.2)
      else walkDFS sourceType rest st
    else if tagName = "div" ∨ tagName = "section" ∨ tagName = "blockquote" ∨
        tagName = "article" ∨ tagName = "aside" then
      let text := HNode.getPlainText (.elem tag attrs cs)
      if text ≠ "" ∧ (HNode.elemChildren cs).length = 0 then
        let r := walkDFS sourceType rest st
        (mkNormBlock .other none text (HNode.outerHTML (.elem tag attrs cs))
          sourceType st :: r.1, r.2)
      else
        walkDFS sourceType (cs.map (fun c => (c, tagName :: anc)) ++ rest) st
    else
      walkDFS sourceType (cs.map (fun c => (c, tagName :: anc)) ++ rest) st
termination_by frames _ => framesSize frames
decreasing_by
  all_goals simp only [framesSizeAppend, framesSizeMap, framesSize, hnodeSize]
  all_goals omega

/-! ## Definitions used by the claim statements, witnesses and
counterexamples -/

/-- The property the claim ascribes to the overlap helpers: the result is
a non-empty suffix of the input; when the final unit fits the budget the
result is the longest suffix whose token sum is within budget, and
otherwise the result is exactly the final unit (exceeding the budget). -/
def OverlapSpec (tok : α → Nat) (budget : Nat) (items result : List α) : Prop :=
  result ≠ [] ∧
  (∃ t, t ++ result = items) ∧
  (∀ x, items.getLast? = some x →
    (tok x ≤ budget →
      (result.map tok).sum ≤ budget ∧
      ∀ k, k ≤ items.length →
        ((items.drop (items.length - k)).map tok).sum ≤ budget →
          k ≤ result.length) ∧
    (budget < tok x → result = [x]))

/-- The token-count invariant the code actually maintains: the recorded
count is the token count of the full content string. -/
def TokensOk (countTokens : String → Nat) (c : Chunk) : Prop :=
  c.tokens = countTokens c.content

/-! ## Example inputs used by witnesses and counterexamples -/

/-- A small paragraph block whose markup carries tags. -/
def exParagraph : DocumentBlock :=
  { type := .paragraph, text := "Hello world", html := "<p>Hello world</p>" }

/-- A one-block document. -/
def exDoc : DocumentStructure :=
  { blocks := [exParagraph], sourceFile := "doc.pdf", sourceType := "pdf" }

/-- Two paragraph blocks used to force a mid-stream flush. -/
def exBlockA : DocumentBlock :=
  { type := .paragraph, text := "aa bb cc", html := "<p>aa bb cc</p>" }

def exBlockB : DocumentBlock :=
  { type := .paragraph, text := "dd ee ff", html := "<p>dd ee ff</p>" }

/-- A heading-free two-block document. -/
def exDoc2 : DocumentStructure :=
  { blocks := [exBlockA, exBlockB], sourceFile := "doc.pdf", sourceType := "pdf" }

/-- Empty global metadata. -/
def exGm : GlobalMetadata := {}

/-- Erase the timestamped `id` field. -/
def eraseId (c : Chunk) : Chunk :=
  { c with id := "" }

/-- The shape of every chunk produced by word-level packing: a non-empty
contiguous run of whole whitespace-delimited words of the original word
list, wrapped in a paragraph tag. -/
def WordRunChunk (full : List String) (c : Chunk) : Prop :=
  ∃ l, l ≠ [] ∧ (∃ p q, p ++ l ++ q = full) ∧
    c.content = "<p>" ++ joinSep " " l ++ "</p>"

/-- The nested headings of the claim's scenario. -/
def exHeadA : DocumentBlock :=
  { type := .heading, level := some 1, text := "A", html := "<h1>A</h1>" }

def exHeadB : DocumentBlock :=
  { type := .heading, level := some 2, text := "B", html := "<h2>B</h2>" }

def exHeadC : DocumentBlock :=
  { type := .heading, level := some 3, text := "C", html := "<h3>C</h3>" }

/-- The section opened by heading "C" with the given content blocks. -/
def exSectionC (rest : List DocumentBlock) : HeadingAwareStrategy.Section :=
  { heading := some exHeadC, blocks := rest, level := 3, sectionPath := ["A", "B", "C"] }

/-- The fixed-size buffer accumulation
`currentChunk += (currentChunk ? "\n" : "") + block`, folded over a block
list. -/
def glueFold (cur : String) : List String → String
  | [] => cur
  | b :: rest => glueFold (cur ++ (if cur ≠ "" then "\n" else "") ++ b) rest

/-- "The parts appear, in order, inside the string": the string splits as
filler, first part, filler, second part, ... -/
def ContainsInOrder : List String → String → Prop
  | [], _ => True
  | p :: ps, s => ∃ pre rest, s = pre ++ p ++ rest ∧ ContainsInOrder ps rest

/-- The concatenation of chunk contents in array order. -/
def concatContents : List Chunk → String
  | [] => ""
  | c :: cs => c.content ++ concatContents cs

/-- The heading-plus-paragraph document of the C3 counterexample. -/
def exTitleHead : DocumentBlock :=
  { type := .heading, level := some 1, text := "Title", html := "<h1>Title</h1>" }

def exDocHP : DocumentStructure :=
  { blocks := [exTitleHead, exParagraph], sourceFile := "doc.pdf", sourceType := "pdf" }

/-! ## Properties of the backward-greedy overlap tail -/

theorem overlapScanPrefix (tok : α → Nat) (B : Nat) :
    ∀ (rl : List α) (acc : Nat),
      overlapScan tok B rl acc = rl.take (overlapScan tok B rl acc).length := by
  intro rl
  induction rl with
  | nil => intro acc; simp [overlapScan]
  | cons x rest ih =>
    intro acc
    simp only [overlapScan]
    split
    · simp only [List.length_cons, List.take_succ_cons, List.cons.injEq, true_and]
      exact ih (acc + tok x)
    · simp

theorem overlapScanBudget (tok : α → Nat) (B : Nat) :
    ∀ (rl : List α) (acc : Nat),
      overlapScan tok B rl acc = [] ∨
        acc + ((overlapScan tok B rl acc).map tok).sum ≤ B := by
  intro rl
  induction rl with
  | nil => intro acc; left; simp [overlapScan]
  | cons x rest ih =>
    intro acc
    simp only [overlapScan]
    split
    · right
      rcases ih (acc + tok x) with h | h
      · simp only [h, List.map_cons, List.map_nil, List.sum_cons, List.sum_nil]
        omega
      · simp only [List.map_cons, List.sum_cons]
        omega
    · left; rfl

theorem overlapScanMax (tok : α → Nat) (B : Nat) :
    ∀ (rl : List α) (k acc : Nat), k ≤ rl.length →
      acc + ((rl.take k).map tok).sum ≤ B →
      k ≤ (overlapScan tok B rl acc).length := by
  intro rl
  induction rl with
  | nil =>
    intro k acc hk _
    simp only [List.length_nil] at hk
    omega
  | cons x rest ih =>
    intro k acc hk hsum
    cases k with
    | zero => omega
    | succ j =>
      simp only [List.take_succ_cons, List.map_cons, List.sum_cons] at hsum
      have hx : acc + tok x ≤ B := by omega
      simp only [overlapScan, if_pos hx, List.length_cons]
      have hj : j ≤ rest.length := by
        simp only [List.length_cons] at hk; omega
      have := ih j (acc + tok x) hj (by omega)
      omega

theorem overlapTailSpec (tok : α → Nat) (B : Nat) (l : List α) (hne : l ≠ []) :
    OverlapSpec tok B l (overlapTail tok B l) := by
  obtain ⟨x, t0, hx⟩ : ∃ x t0, l = t0 ++ [x] := by
    rcases List.eq_nil_or_concat l with h | ⟨t0, x, h⟩
    · exact absurd h hne
    · exact ⟨x, t0, by simpa [List.concat_eq_append] using h⟩
  have hrev : l.reverse = x :: t0.reverse := by
    rw [hx]; simp
  have hlast : l.getLast? = some x := by
    rw [hx]; exact List.getLast?_concat t0
  by_cases hxB : tok x ≤ B
  · -- the final unit fits: the scan result is non-empty
    have hscan : overlapScan tok B l.reverse 0 =
        x :: overlapScan tok B t0.reverse (0 + tok x) := by
      rw [hrev]
      simp only [overlapScan]
      rw [if_pos (by omega)]
    have hres : overlapTail tok B l = (overlapScan tok B l.reverse 0).reverse := by
      unfold overlapTail
      rw [if_pos]
      rw [hscan]
      simp
    set res := overlapScan tok B l.reverse 0 with hresdef
    have hresne : res ≠ [] := by rw [hscan]; simp
    have hpre : res = l.reverse.take res.length := overlapScanPrefix tok B l.reverse 0
    have hdrop : overlapTail tok B l = l.drop (l.length - res.length) := by
      rw [hres]
      conv_lhs => rw [hpre]
      rw [List.take_reverse, List.reverse_reverse]
    refine ⟨?_, ?_, ?_⟩
    · rw [hres]
      simpa using hresne
    · exact ⟨l.take (l.length - res.length), by rw [hdrop]; exact List.take_append_drop _ _⟩
    · intro y hy
      rw [hlast] at hy
      cases hy
      constructor
      · intro _
        constructor
        · rcases overlapScanBudget tok B l.reverse 0 with h | h
          · exact absurd h hresne
          · rw [hres]
            simpa [List.sum_reverse] using h
        · intro k hk hsum
          have hk2 : ((l.reverse.take k).map tok).sum ≤ B := by
            have : l.reverse.take k = (l.drop (l.length - k)).reverse := List.take_reverse
            rw [this]
            simpa [List.sum_reverse] using hsum
          have := overlapScanMax tok B l.reverse k 0
            (by simpa [List.length_reverse] using hk) (by omega)
          rw [hres]
          simpa using this
      · intro hlt
        omega
  · -- the final unit does not fit: empty scan, fallback to the last item
    have hscan : overlapScan tok B l.reverse 0 = [] := by
      rw [hrev]
      simp only [overlapScan]
      rw [if_neg (by omega)]
    have hres : overlapTail tok B l = [x] := by
      unfold overlapTail
      rw [hscan]
      simp [hlast]
    refine ⟨by rw [hres]; simp, ⟨t0, by rw [hres, hx]⟩, ?_⟩
    intro y hy
    rw [hlast] at hy
    cases hy
    exact ⟨fun h => absurd h hxB, fun _ => hres⟩

/-- Claim C10: in the heading-aware and paragraph-aware strategies, the
overlap seeded into the next chunk by `getOverlapBlocks`,
`getOverlapSentences` and `getOverlapWords` is never empty: it is the
maximal suffix of whole trailing units whose combined token count is at
most `overlapTokens`, except that when the single final unit alone
exceeds `overlapTokens`, that final unit is seeded anyway (so the actual
overlap can exceed the configured budget). -/
theorem claim_C10 (countTokens : String → Nat) (overlapTokens : Nat)
    (blocks : List DocumentBlock) (sentences words : List String)
    (hb : blocks ≠ []) (hs : sentences ≠ []) (hw : words ≠ []) :
    OverlapSpec (fun b => countTokens b.html) overlapTokens blocks
      (HeadingAwareStrategy.getOverlapBlocks countTokens blocks overlapTokens) ∧
    OverlapSpec countTokens overlapTokens sentences
      (HeadingAwareStrategy.getOverlapSentences countTokens sentences overlapTokens) ∧
    OverlapSpec (fun b => countTokens b.html) overlapTokens blocks
      (ParagraphAwareStrategy.getOverlapBlocks countTokens blocks overlapTokens) ∧
    OverlapSpec countTokens overlapTokens sentences
      (ParagraphAwareStrategy.getOverlapSentences countTokens sentences overlapTokens) ∧
    OverlapSpec (fun w => countTokens (w ++ " ")) overlapTokens words
      (ParagraphAwareStrategy.getOverlapWords countTokens words overlapTokens) :=
  ⟨overlapTailSpec _ _ _ hb, overlapTailSpec _ _ _ hs, overlapTailSpec _ _ _ hb,
    overlapTailSpec _ _ _ hs, overlapTailSpec _ _ _ hw⟩

/-! ## Chunk predicates preserved by every emission -/

theorem memAppendSingletonP {P : Chunk → Prop} {l : List Chunk} {c0 : Chunk}
    (hl : ∀ c ∈ l, P c) (h0 : P c0) : ∀ c ∈ l ++ [c0], P c := by
  intro c hc
  rcases List.mem_append.mp hc with h | h
  · exact hl c h
  · rw [List.mem_singleton.mp h]; exact h0

theorem FixedSizeStrategy.sentenceLoopP (ct : String → Nat) (now maxTokens : Nat)
    (struct : DocumentStructure) (opts : ChunkingOptions) {P : Chunk → Prop}
    (hP : ∀ content number, P (createChunk ct now content number struct opts)) :
    ∀ (sentences : List String) (buf : String) (tok n : Nat) (chunks : List Chunk),
      (∀ c ∈ chunks, P c) →
      ∀ c ∈ (sentenceLoop ct now maxTokens struct opts sentences buf tok n chunks).1, P c := by
  intro sentences
  induction sentences with
  | nil =>
    intro buf tok n chunks hacc c hc
    exact hacc c (by simpa [sentenceLoop] using hc)
  | cons s rest ih =>
    intro buf tok n chunks hacc
    simp only [sentenceLoop]
    split
    · exact ih _ _ _ _ (memAppendSingletonP hacc (hP _ _))
    · exact ih _ _ _ _ hacc

theorem FixedSizeStrategy.fsChunkLoopP (ct : String → Nat) (now maxTokens overlapTokens : Nat)
    (struct : DocumentStructure) (opts : ChunkingOptions) {P : Chunk → Prop}
    (hP : ∀ content number, P (createChunk ct now content number struct opts)) :
    ∀ (blocks : List String) (cur : String) (tok n : Nat) (chunks : List Chunk),
      (∀ c ∈ chunks, P c) →
      ∀ c ∈ chunkLoop ct now maxTokens overlapTokens struct opts blocks cur tok n chunks,
        P c := by
  intro blocks
  induction blocks with
  | nil =>
    intro cur tok n chunks hacc c hc
    simp only [chunkLoop] at hc
    split at hc
    · exact memAppendSingletonP hacc (hP _ _) c hc
    · exact hacc c hc
  | cons b rest ih =>
    intro cur tok n chunks hacc
    simp only [chunkLoop]
    split
    · -- oversized block
      by_cases hcur : cur ≠ ""
      · simp only [if_pos hcur]
        split
        · exact ih _ _ _ _
            (sentenceLoopP ct now maxTokens struct opts hP _ _ _ _ _
              (memAppendSingletonP hacc (hP _ _)))
        · exact ih _ _ _ _
            (memAppendSingletonP (memAppendSingletonP hacc (hP _ _)) (hP _ _))
      · simp only [if_neg hcur]
        split
        · exact ih _ _ _ _ (sentenceLoopP ct now maxTokens struct opts hP _ _ _ _ _ hacc)
        · exact ih _ _ _ _ (memAppendSingletonP hacc (hP _ _))
    · split
      · exact ih _ _ _ _ (memAppendSingletonP hacc (hP _ _))
      · exact ih _ _ _ _ hacc

theorem FixedSizeStrategy.fsChunkP (ct : String → Nat) (now : Nat)
    (struct : DocumentStructure) (options : ChunkingOptions) (gm : GlobalMetadata)
    {P : Chunk → Prop}
    (hP : ∀ content number,
      P (createChunk ct now content number struct (mergeOptions defaultOptions options))) :
    ∀ c ∈ chunk ct now struct options gm, P c := by
  intro c hc
  exact fsChunkLoopP ct now _ _ struct _ hP _ "" 0 1 [] (by simp) c hc

theorem HeadingAwareStrategy.paraLoopP (ct : String → Nat) (now maxTokens overlapTokens : Nat)
    (s : Section) (struct : DocumentStructure) (opts : ChunkingOptions) {P : Chunk → Prop}
    (hP : ∀ content number,
      P (createChunk ct now content number s.sectionPath s struct opts)) :
    ∀ (blocks cur : List DocumentBlock) (tok n : Nat) (chunks : List Chunk),
      (∀ c ∈ chunks, P c) →
      ∀ c ∈ paraLoop ct now maxTokens overlapTokens s struct opts blocks cur tok n chunks,
        P c := by
  intro blocks
  induction blocks with
  | nil =>
    intro cur tok n chunks hacc c hc
    simp only [paraLoop] at hc
    split at hc
    · exact memAppendSingletonP hacc (hP _ _) c hc
    · exact hacc c hc
  | cons b rest ih =>
    intro cur tok n chunks hacc
    simp only [paraLoop]
    split
    · split
      · exact ih _ _ _ _ (memAppendSingletonP hacc (hP _ _))
      · exact ih _ _ _ _ (memAppendSingletonP hacc (hP _ _))
    · exact ih _ _ _ _ hacc

theorem HeadingAwareStrategy.sentLoopP (ct : String → Nat) (now maxTokens overlapTokens : Nat)
    (s : Section) (struct : DocumentStructure) (opts : ChunkingOptions) {P : Chunk → Prop}
    (hP : ∀ content number,
      P (createChunk ct now content number s.sectionPath s struct opts)) :
    ∀ (items : List SentenceItem) (content : List String) (tok n : Nat) (chunks : List Chunk),
      (∀ c ∈ chunks, P c) →
      ∀ c ∈ sentLoop ct now maxTokens overlapTokens s struct opts items content tok n chunks,
        P c := by
  intro items
  induction items with
  | nil =>
    intro content tok n chunks hacc c hc
    simp only [sentLoop] at hc
    split at hc
    · exact memAppendSingletonP hacc (hP _ _) c hc
    · exact hacc c hc
  | cons snt rest ih =>
    intro content tok n chunks hacc
    simp only [sentLoop]
    split
    · split
      · exact ih _ _ _ _ (memAppendSingletonP hacc (hP _ _))
      · exact ih _ _ _ _ (memAppendSingletonP hacc (hP _ _))
    · exact ih _ _ _ _ hacc

theorem HeadingAwareStrategy.chunkSectionP (ct : String → Nat)
    (now maxTokens overlapTokens minChunkTokens : Nat) (sub : String) (startN : Nat)
    (s : Section) (struct : DocumentStructure) (opts : ChunkingOptions) {P : Chunk → Prop}
    (hP : ∀ content number,
      P (createChunk ct now content number s.sectionPath s struct opts)) :
    ∀ c ∈ chunkSection ct now maxTokens overlapTokens minChunkTokens sub startN struct opts s,
      P c := by
  intro c hc
  simp only [chunkSection] at hc
  split at hc
  · rw [List.mem_singleton.mp hc]; exact hP _ _
  · split at hc
    · exact sentLoopP ct now maxTokens overlapTokens s struct opts hP _ _ _ _ _ (by simp) c hc
    · exact paraLoopP ct now maxTokens overlapTokens s struct opts hP _ _ _ _ _ (by simp) c hc

theorem HeadingAwareStrategy.sectionLoopP (ct : String → Nat)
    (now maxTokens overlapTokens minChunkTokens : Nat) (sub : String)
    (struct : DocumentStructure) (opts : ChunkingOptions) {P : Chunk → Prop}
    (hP : ∀ (s : Section) content number,
      P (createChunk ct now content number s.sectionPath s struct opts)) :
    ∀ (sections : List Section) (n : Nat) (acc : List Chunk),
      (∀ c ∈ acc, P c) →
      ∀ c ∈ sectionLoop ct now maxTokens overlapTokens minChunkTokens sub struct opts
          sections n acc, P c := by
  intro sections
  induction sections with
  | nil => intro n acc hacc c hc; exact hacc c (by simpa [sectionLoop] using hc)
  | cons s rest ih =>
    intro n acc hacc
    simp only [sectionLoop]
    apply ih
    intro c hc
    rcases List.mem_append.mp hc with h | h
    · exact hacc c h
    · exact chunkSectionP ct now maxTokens overlapTokens minChunkTokens sub n s struct opts
        (hP s) c h

theorem HeadingAwareStrategy.fallbackLoopP (ct : String → Nat) (now maxTokens : Nat)
    (struct : DocumentStructure) (opts : ChunkingOptions) {P : Chunk → Prop}
    (hP : ∀ content number (cur : List DocumentBlock),
      P (createChunk ct now content number []
        { heading := none, blocks := cur, level := 0, sectionPath := [] } struct opts)) :
    ∀ (blocks cur : List DocumentBlock) (tok n : Nat) (chunks : List Chunk),
      (∀ c ∈ chunks, P c) →
      ∀ c ∈ fallbackLoop ct now maxTokens struct opts blocks cur tok n chunks, P c := by
  intro blocks
  induction blocks with
  | nil =>
    intro cur tok n chunks hacc c hc
    simp only [fallbackLoop] at hc
    split at hc
    · exact memAppendSingletonP hacc (hP _ _ _) c hc
    · exact hacc c hc
  | cons b rest ih =>
    intro cur tok n chunks hacc
    simp only [fallbackLoop]
    split
    · exact ih _ _ _ _ hacc
    · split
      · exact ih _ _ _ _ (memAppendSingletonP hacc (hP _ _ _))
      · exact ih _ _ _ _ hacc

theorem HeadingAwareStrategy.haChunkP (ct : String → Nat) (now : Nat)
    (struct : DocumentStructure) (options : ChunkingOptions) (gm : GlobalMetadata)
    {P : Chunk → Prop}
    (hP : ∀ (s : Section) content number,
      P (createChunk ct now content number s.sectionPath s struct
        (mergeOptions defaultOptions options))) :
    ∀ c ∈ chunk ct now struct options gm, P c := by
  intro c hc
  simp only [chunk] at hc
  split at hc
  · simp only [fallbackToParagraphChunking] at hc
    exact fallbackLoopP ct now _ struct _
      (fun content number cur =>
        hP { heading := none, blocks := cur, level := 0, sectionPath := [] } content number)
      _ _ _ _ _ (by simp) c hc
  · exact sectionLoopP ct now _ _ _ _ struct _ hP _ _ _ (by simp) c hc

theorem ParagraphAwareStrategy.sentSplitLoopP (ct : String → Nat)
    (now maxTokens overlapTokens : Nat) (blk : DocumentBlock)
    (struct : DocumentStructure) (opts : ChunkingOptions) {P : Chunk → Prop}
    (hP : ∀ content number fb,
      P (createChunkFromContent ct now content number struct fb opts)) :
    ∀ (sentences curSents : List String) (tok n : Nat) (chunks : List Chunk),
      (∀ c ∈ chunks, P c) →
      ∀ c ∈ sentSplitLoop ct now maxTokens overlapTokens blk struct opts sentences
          curSents tok n chunks, P c := by
  intro sentences
  induction sentences with
  | nil =>
    intro curSents tok n chunks hacc c hc
    simp only [sentSplitLoop] at hc
    split at hc
    · exact memAppendSingletonP hacc (hP _ _ _) c hc
    · exact hacc c hc
  | cons snt rest ih =>
    intro curSents tok n chunks hacc
    simp only [sentSplitLoop]
    split
    · split
      · exact ih _ _ _ _ (memAppendSingletonP hacc (hP _ _ _))
      · exact ih _ _ _ _ (memAppendSingletonP hacc (hP _ _ _))
    · exact ih _ _ _ _ hacc

theorem ParagraphAwareStrategy.wordLoopP (ct : String → Nat)
    (now maxTokens overlapTokens : Nat) (blk : DocumentBlock)
    (struct : DocumentStructure) (opts : ChunkingOptions) {P : Chunk → Prop}
    (hP : ∀ content number fb,
      P (createChunkFromContent ct now content number struct fb opts)) :
    ∀ (words curWords : List String) (tok n : Nat) (chunks : List Chunk),
      (∀ c ∈ chunks, P c) →
      ∀ c ∈ wordLoop ct now maxTokens overlapTokens blk struct opts words
          curWords tok n chunks, P c := by
  intro words
  induction words with
  | nil =>
    intro curWords tok n chunks hacc c hc
    simp only [wordLoop] at hc
    split at hc
    · exact memAppendSingletonP hacc (hP _ _ _) c hc
    · exact hacc c hc
  | cons w rest ih =>
    intro curWords tok n chunks hacc
    simp only [wordLoop]
    split
    · split
      · exact ih _ _ _ _ (memAppendSingletonP hacc (hP _ _ _))
      · exact ih _ _ _ _ (memAppendSingletonP hacc (hP _ _ _))
    · exact ih _ _ _ _ hacc

theorem ParagraphAwareStrategy.splitOversizedBlockP (ct : String → Nat)
    (now maxTokens overlapTokens startN : Nat) (blk : DocumentBlock)
    (struct : DocumentStructure) (opts : ChunkingOptions) {P : Chunk → Prop}
    (hP : ∀ content number fb,
      P (createChunkFromContent ct now content number struct fb opts)) :
    ∀ c ∈ splitOversizedBlock ct now blk maxTokens overlapTokens startN struct opts,
      P c := by
  intro c hc
  simp only [splitOversizedBlock] at hc
  split at hc
  · exact sentSplitLoopP ct now maxTokens overlapTokens blk struct opts hP _ _ _ _ _
      (by simp) c hc
  · refine wordLoopP ct now maxTokens overlapTokens blk struct opts hP
      (splitWsJS blk.text) [] 0 startN [] (by simp) c ?_
    simpa [splitByTokens] using hc

theorem ParagraphAwareStrategy.paChunkLoopP (ct : String → Nat)
    (now maxTokens overlapTokens minP maxP : Nat)
    (struct : DocumentStructure) (opts : ChunkingOptions) {P : Chunk → Prop}
    (hP : ∀ content number fb,
      P (createChunkFromContent ct now content number struct fb opts)) :
    ∀ (blocks cur : List DocumentBlock) (tok n : Nat) (chunks : List Chunk),
      (∀ c ∈ chunks, P c) →
      ∀ c ∈ chunkLoop ct now maxTokens overlapTokens minP maxP struct opts blocks
          cur tok n chunks, P c := by
  intro blocks
  induction blocks with
  | nil =>
    intro cur tok n chunks hacc c hc
    simp only [chunkLoop] at hc
    split at hc
    · exact memAppendSingletonP hacc (hP _ _ _) c hc
    · exact hacc c hc
  | cons b rest ih =>
    intro cur tok n chunks hacc
    simp only [chunkLoop]
    split
    · by_cases hcur : cur.length > 0
      · simp only [if_pos hcur]
        apply ih
        intro c hc
        rcases List.mem_append.mp hc with h | h
        · exact memAppendSingletonP hacc (hP _ _ _) c h
        · exact splitOversizedBlockP ct now maxTokens overlapTokens _ b struct opts hP c h
      · simp only [if_neg hcur]
        apply ih
        intro c hc
        rcases List.mem_append.mp hc with h | h
        · exact hacc c h
        · exact splitOversizedBlockP ct now maxTokens overlapTokens _ b struct opts hP c h
    · split
      · split
        · exact ih _ _ _ _ (memAppendSingletonP hacc (hP _ _ _))
        · exact ih _ _ _ _ (memAppendSingletonP hacc (hP _ _ _))
      · exact ih _ _ _ _ hacc

theorem ParagraphAwareStrategy.paChunkP (ct : String → Nat) (now : Nat)
    (struct : DocumentStructure) (options : ChunkingOptions) (gm : GlobalMetadata)
    {P : Chunk → Prop}
    (hP : ∀ content number fb,
      P (createChunkFromContent ct now content number struct fb
        (mergeOptions defaultOptions options))) :
    ∀ c ∈ chunk ct now struct options gm, P c := by
  intro c hc
  exact paChunkLoopP ct now _ _ _ _ struct _ hP _ _ _ _ _ (by simp) c hc

theorem SlidingWindowStrategy.loopP (ct : String → Nat) (now : Nat)
    (tokens : List String) (windowSize : Nat) (stepSize : Int) (pwb psb : Bool)
    (struct : DocumentStructure) (opts : ChunkingOptions) {P : Chunk → Prop}
    (hP : ∀ content number windowIndex,
      P (createChunk ct now content number windowIndex struct opts)) :
    ∀ (position chunkNumber : Nat) (chunks : List Chunk),
      (∀ c ∈ chunks, P c) →
      ∀ c ∈ loop ct now tokens windowSize stepSize pwb psb struct opts position
          chunkNumber chunks, P c := by
  intro position chunkNumber chunks
  induction position, chunkNumber, chunks using loop.induct ct now tokens windowSize
    stepSize pwb psb struct opts with
  | case1 position chunkNumber chunks h windowEnd0 windowEnd windowTokens windowText
      windowHTML chunks1 posI position1 ih =>
    intro hacc
    rw [loop]
    simp only [dif_pos h]
    exact ih (memAppendSingletonP hacc (hP _ _ _))
  | case2 position chunkNumber chunks h =>
    intro hacc
    rw [loop]
    simp only [dif_neg h]
    exact hacc

theorem SlidingWindowStrategy.swChunkP (ct : String → Nat) (now : Nat)
    (struct : DocumentStructure) (options : ChunkingOptions) (gm : GlobalMetadata)
    {P : Chunk → Prop}
    (hP : ∀ content number windowIndex,
      P (createChunk ct now content number windowIndex struct
        (mergeOptions defaultOptions options))) :
    ∀ c ∈ chunk ct now struct options gm, P c := by
  intro c hc
  simp only [chunk] at hc
  split at hc
  · simp at hc
  · split at hc
    · rw [List.mem_singleton.mp hc]; exact hP _ _ _
    · exact loopP ct now _ _ _ _ _ struct _ hP _ _ _ (by simp) c hc

/-! ## Claim C1 -/

/-- Claim C1 counterexample: on a one-paragraph document the fixed-size
strategy's chunk records `countTokens` of the full markup content
(10 model tokens for `<p>Hello world</p>`), not of the tag-stripped plain
text (2 model tokens for `Hello world`). -/
theorem claim_C1_counterexample :
    ¬ (∀ c ∈ FixedSizeStrategy.chunk countTokensModel 0 exDoc {} exGm,
        c.tokens = countTokensModel (stripTags c.content)) := by
  decide

/-- Claim C1 (amended): for every strategy and every chunk it emits, the
`tokenCount` field equals the Token Counter applied to the chunk's full
`content` string, markup included (not to the tag-stripped plain text). -/
theorem claim_C1_amended (countTokens : String → Nat) (now : Nat)
    (struct : DocumentStructure) (options : ChunkingOptions) (gm : GlobalMetadata) :
    (∀ c ∈ FixedSizeStrategy.chunk countTokens now struct options gm,
      c.tokens = countTokens c.content) ∧
    (∀ c ∈ HeadingAwareStrategy.chunk countTokens now struct options gm,
      c.tokens = countTokens c.content) ∧
    (∀ c ∈ ParagraphAwareStrategy.chunk countTokens now struct options gm,
      c.tokens = countTokens c.content) ∧
    (∀ c ∈ SlidingWindowStrategy.chunk countTokens now struct options gm,
      c.tokens = countTokens c.content) := by
  refine ⟨?_, ?_, ?_, ?_⟩
  · exact FixedSizeStrategy.fsChunkP countTokens now struct options gm
      (fun content number => rfl)
  · exact HeadingAwareStrategy.haChunkP countTokens now struct options gm
      (fun s content number => rfl)
  · exact ParagraphAwareStrategy.paChunkP countTokens now struct options gm
      (fun content number fb => rfl)
  · exact SlidingWindowStrategy.swChunkP countTokens now struct options gm
      (fun content number wi => rfl)

/-- Claim C1 amended witness: the amended equation, checked on the first
chunk the fixed-size strategy emits for the example document. -/
theorem claim_C1_amended_witness :
    ((FixedSizeStrategy.chunk countTokensModel 0 exDoc {} exGm).headI
        ∈ FixedSizeStrategy.chunk countTokensModel 0 exDoc {} exGm) ∧
    (FixedSizeStrategy.chunk countTokensModel 0 exDoc {} exGm).headI.tokens
        = countTokensModel (FixedSizeStrategy.chunk countTokensModel 0 exDoc {} exGm).headI.content :=
  ⟨by decide, (claim_C1_amended countTokensModel 0 exDoc {} exGm).1 _ (by decide)⟩

/-! ## Claim C4: determinism up to the id timestamp -/

theorem mapEraseIdAppendSingleton {l l' : List Chunk} (c c' : Chunk)
    (h : l.map eraseId = l'.map eraseId) (hc : eraseId c = eraseId c') :
    (l ++ [c]).map eraseId = (l' ++ [c']).map eraseId := by
  simp only [List.map_append, List.map_cons, List.map_nil, h, hc]

theorem FixedSizeStrategy.fsPushEraseId (ct : String → Nat) (now npr : Nat)
    (content : String) (number : Nat) (struct : DocumentStructure)
    (opts : ChunkingOptions) {l l' : List Chunk}
    (h : l.map eraseId = l'.map eraseId) :
    (l ++ [createChunk ct now content number struct opts]).map eraseId
      = (l' ++ [createChunk ct npr content number struct opts]).map eraseId :=
  mapEraseIdAppendSingleton _ _ h rfl

theorem FixedSizeStrategy.sentenceLoopEraseId (ct : String → Nat) (now npr maxT : Nat)
    (struct : DocumentStructure) (opts : ChunkingOptions) :
    ∀ (sentences : List String) (buf : String) (tok n : Nat) (chunks chunks' : List Chunk),
      chunks.map eraseId = chunks'.map eraseId →
      (sentenceLoop ct now maxT struct opts sentences buf tok n chunks).1.map eraseId
        = (sentenceLoop ct npr maxT struct opts sentences buf tok n chunks').1.map eraseId
      ∧ (sentenceLoop ct now maxT struct opts sentences buf tok n chunks).2
        = (sentenceLoop ct npr maxT struct opts sentences buf tok n chunks').2 := by
  intro sentences
  induction sentences with
  | nil =>
    intro buf tok n chunks chunks' h
    exact ⟨by simpa [sentenceLoop] using h, by simp [sentenceLoop]⟩
  | cons s rest ih =>
    intro buf tok n chunks chunks' h
    simp only [sentenceLoop]
    split
    · exact ih _ _ _ _ _ (fsPushEraseId ct now npr _ _ struct opts h)
    · exact ih _ _ _ _ _ h

theorem FixedSizeStrategy.fsChunkLoopEraseId (ct : String → Nat)
    (now npr maxT overlapT : Nat) (struct : DocumentStructure) (opts : ChunkingOptions) :
    ∀ (blocks : List String) (cur : String) (tok n : Nat) (chunks chunks' : List Chunk),
      chunks.map eraseId = chunks'.map eraseId →
      (chunkLoop ct now maxT overlapT struct opts blocks cur tok n chunks).map eraseId
        = (chunkLoop ct npr maxT overlapT struct opts blocks cur tok n chunks').map eraseId := by
  intro blocks
  induction blocks with
  | nil =>
    intro cur tok n chunks chunks' h
    simp only [chunkLoop]
    split
    · exact fsPushEraseId ct now npr _ _ struct opts h
    · exact h
  | cons b rest ih =>
    intro cur tok n chunks chunks' h
    simp only [chunkLoop]
    split
    · by_cases hcur : cur ≠ ""
      · simp only [if_pos hcur]
        split
        · have hs := sentenceLoopEraseId ct now npr maxT struct opts
            (sentencesJS (stripTags (trimJS b))) "" 0 (n + 1) _ _
            (fsPushEraseId ct now npr cur n struct opts h)
          rw [hs.2]
          exact ih _ _ _ _ _ hs.1
        · exact ih _ _ _ _ _
            (fsPushEraseId ct now npr _ _ struct opts
              (fsPushEraseId ct now npr _ _ struct opts h))
      · simp only [if_neg hcur]
        split
        · have hs := sentenceLoopEraseId ct now npr maxT struct opts
            (sentencesJS (stripTags (trimJS b))) "" 0 n _ _ h
          rw [hs.2]
          exact ih _ _ _ _ _ hs.1
        · exact ih _ _ _ _ _ (fsPushEraseId ct now npr _ _ struct opts h)
    · split
      · exact ih _ _ _ _ _ (fsPushEraseId ct now npr _ _ struct opts h)
      · exact ih _ _ _ _ _ h

theorem HeadingAwareStrategy.haPushEraseId (ct : String → Nat) (now npr : Nat)
    (content : String) (number : Nat) (path : List String) (s : Section)
    (struct : DocumentStructure) (opts : ChunkingOptions) {l l' : List Chunk}
    (h : l.map eraseId = l'.map eraseId) :
    (l ++ [createChunk ct now content number path s struct opts]).map eraseId
      = (l' ++ [createChunk ct npr content number path s struct opts]).map eraseId :=
  mapEraseIdAppendSingleton _ _ h rfl

theorem HeadingAwareStrategy.paraLoopEraseId (ct : String → Nat) (now npr maxT ovT : Nat)
    (s : Section) (struct : DocumentStructure) (opts : ChunkingOptions) :
    ∀ (blocks cur : List DocumentBlock) (tok n : Nat) (chunks chunks' : List Chunk),
      chunks.map eraseId = chunks'.map eraseId →
      (paraLoop ct now maxT ovT s struct opts blocks cur tok n chunks).map eraseId
        = (paraLoop ct npr maxT ovT s struct opts blocks cur tok n chunks').map eraseId := by
  intro blocks
  induction blocks with
  | nil =>
    intro cur tok n chunks chunks' h
    simp only [paraLoop]
    split
    · exact haPushEraseId ct now npr _ _ _ _ struct opts h
    · exact h
  | cons b rest ih =>
    intro cur tok n chunks chunks' h
    simp only [paraLoop]
    split
    · split
      · exact ih _ _ _ _ _ (haPushEraseId ct now npr _ _ _ _ struct opts h)
      · exact ih _ _ _ _ _ (haPushEraseId ct now npr _ _ _ _ struct opts h)
    · exact ih _ _ _ _ _ h

theorem HeadingAwareStrategy.sentLoopEraseId (ct : String → Nat) (now npr maxT ovT : Nat)
    (s : Section) (struct : DocumentStructure) (opts : ChunkingOptions) :
    ∀ (items : List SentenceItem) (content : List String) (tok n : Nat)
      (chunks chunks' : List Chunk),
      chunks.map eraseId = chunks'.map eraseId →
      (sentLoop ct now maxT ovT s struct opts items content tok n chunks).map eraseId
        = (sentLoop ct npr maxT ovT s struct opts items content tok n chunks').map eraseId := by
  intro items
  induction items with
  | nil =>
    intro content tok n chunks chunks' h
    simp only [sentLoop]
    split
    · exact haPushEraseId ct now npr _ _ _ _ struct opts h
    · exact h
  | cons snt rest ih =>
    intro content tok n chunks chunks' h
    simp only [sentLoop]
    split
    · split
      · exact ih _ _ _ _ _ (haPushEraseId ct now npr _ _ _ _ struct opts h)
      · exact ih _ _ _ _ _ (haPushEraseId ct now npr _ _ _ _ struct opts h)
    · exact ih _ _ _ _ _ h

theorem HeadingAwareStrategy.chunkSectionEraseId (ct : String → Nat)
    (now npr maxT ovT minT : Nat) (sub : String) (startN : Nat)
    (struct : DocumentStructure) (opts : ChunkingOptions) (s : Section) :
    (chunkSection ct now maxT ovT minT sub startN struct opts s).map eraseId
      = (chunkSection ct npr maxT ovT minT sub startN struct opts s).map eraseId := by
  simp only [chunkSection]
  split
  · rfl
  · split
    · exact sentLoopEraseId ct now npr maxT ovT s struct opts _ _ _ _ _ _ rfl
    · exact paraLoopEraseId ct now npr maxT ovT s struct opts _ _ _ _ _ _ rfl

theorem HeadingAwareStrategy.sectionLoopEraseId (ct : String → Nat)
    (now npr maxT ovT minT : Nat) (sub : String)
    (struct : DocumentStructure) (opts : ChunkingOptions) :
    ∀ (sections : List Section) (n : Nat) (acc acc' : List Chunk),
      acc.map eraseId = acc'.map eraseId →
      (sectionLoop ct now maxT ovT minT sub struct opts sections n acc).map eraseId
        = (sectionLoop ct npr maxT ovT minT sub struct opts sections n acc').map eraseId := by
  intro sections
  induction sections with
  | nil => intro n acc acc' h; simpa [sectionLoop] using h
  | cons s rest ih =>
    intro n acc acc' h
    simp only [sectionLoop]
    have hcs := chunkSectionEraseId ct now npr maxT ovT minT sub n struct opts s
    have hlen : (chunkSection ct now maxT ovT minT sub n struct opts s).length
        = (chunkSection ct npr maxT ovT minT sub n struct opts s).length := by
      have := congrArg List.length hcs
      simpa using this
    rw [hlen]
    apply ih
    simp only [List.map_append, h, hcs]

theorem HeadingAwareStrategy.fallbackLoopEraseId (ct : String → Nat) (now npr maxT : Nat)
    (struct : DocumentStructure) (opts : ChunkingOptions) :
    ∀ (blocks cur : List DocumentBlock) (tok n : Nat) (chunks chunks' : List Chunk),
      chunks.map eraseId = chunks'.map eraseId →
      (fallbackLoop ct now maxT struct opts blocks cur tok n chunks).map eraseId
        = (fallbackLoop ct npr maxT struct opts blocks cur tok n chunks').map eraseId := by
  intro blocks
  induction blocks with
  | nil =>
    intro cur tok n chunks chunks' h
    simp only [fallbackLoop]
    split
    · exact haPushEraseId ct now npr _ _ _ _ struct opts h
    · exact h
  | cons b rest ih =>
    intro cur tok n chunks chunks' h
    simp only [fallbackLoop]
    split
    · exact ih _ _ _ _ _ h
    · split
      · exact ih _ _ _ _ _ (haPushEraseId ct now npr _ _ _ _ struct opts h)
      · exact ih _ _ _ _ _ h

theorem HeadingAwareStrategy.haChunkEraseId (ct : String → Nat) (now npr : Nat)
    (struct : DocumentStructure) (options : ChunkingOptions) (gm : GlobalMetadata) :
    (chunk ct now struct options gm).map eraseId
      = (chunk ct npr struct options gm).map eraseId := by
  simp only [chunk]
  split
  · simp only [fallbackToParagraphChunking]
    exact fallbackLoopEraseId ct now npr _ struct _ _ _ _ _ _ _ rfl
  · exact sectionLoopEraseId ct now npr _ _ _ _ struct _ _ _ _ _ rfl

theorem ParagraphAwareStrategy.paPushEraseId (ct : String → Nat) (now npr : Nat)
    (content : String) (number : Nat) (struct : DocumentStructure) (fb : DocumentBlock)
    (opts : ChunkingOptions) {l l' : List Chunk}
    (h : l.map eraseId = l'.map eraseId) :
    (l ++ [createChunkFromContent ct now content number struct fb opts]).map eraseId
      = (l' ++ [createChunkFromContent ct npr content number struct fb opts]).map eraseId :=
  mapEraseIdAppendSingleton _ _ h rfl

theorem ParagraphAwareStrategy.pushEraseIdBlocks (ct : String → Nat) (now npr : Nat)
    (blocks : List DocumentBlock) (number : Nat) (struct : DocumentStructure)
    (opts : ChunkingOptions) {l l' : List Chunk}
    (h : l.map eraseId = l'.map eraseId) :
    (l ++ [createChunk ct now blocks number struct opts]).map eraseId
      = (l' ++ [createChunk ct npr blocks number struct opts]).map eraseId :=
  mapEraseIdAppendSingleton _ _ h rfl

theorem ParagraphAwareStrategy.sentSplitLoopEraseId (ct : String → Nat)
    (now npr maxT ovT : Nat) (blk : DocumentBlock)
    (struct : DocumentStructure) (opts : ChunkingOptions) :
    ∀ (sentences curSents : List String) (tok n : Nat) (chunks chunks' : List Chunk),
      chunks.map eraseId = chunks'.map eraseId →
      (sentSplitLoop ct now maxT ovT blk struct opts sentences curSents tok n chunks).map eraseId
        = (sentSplitLoop ct npr maxT ovT blk struct opts sentences curSents tok n chunks').map
            eraseId := by
  intro sentences
  induction sentences with
  | nil =>
    intro curSents tok n chunks chunks' h
    simp only [sentSplitLoop]
    split
    · exact paPushEraseId ct now npr _ _ struct _ opts h
    · exact h
  | cons snt rest ih =>
    intro curSents tok n chunks chunks' h
    simp only [sentSplitLoop]
    split
    · split
      · exact ih _ _ _ _ _ (paPushEraseId ct now npr _ _ struct _ opts h)
      · exact ih _ _ _ _ _ (paPushEraseId ct now npr _ _ struct _ opts h)
    · exact ih _ _ _ _ _ h

theorem ParagraphAwareStrategy.wordLoopEraseId (ct : String → Nat)
    (now npr maxT ovT : Nat) (blk : DocumentBlock)
    (struct : DocumentStructure) (opts : ChunkingOptions) :
    ∀ (words curWords : List String) (tok n : Nat) (chunks chunks' : List Chunk),
      chunks.map eraseId = chunks'.map eraseId →
      (wordLoop ct now maxT ovT blk struct opts words curWords tok n chunks).map eraseId
        = (wordLoop ct npr maxT ovT blk struct opts words curWords tok n chunks').map eraseId := by
  intro words
  induction words with
  | nil =>
    intro curWords tok n chunks chunks' h
    simp only [wordLoop]
    split
    · exact paPushEraseId ct now npr _ _ struct _ opts h
    · exact h
  | cons w rest ih =>
    intro curWords tok n chunks chunks' h
    simp only [wordLoop]
    split
    · split
      · exact ih _ _ _ _ _ (paPushEraseId ct now npr _ _ struct _ opts h)
      · exact ih _ _ _ _ _ (paPushEraseId ct now npr _ _ struct _ opts h)
    · exact ih _ _ _ _ _ h

theorem ParagraphAwareStrategy.splitOversizedBlockEraseId (ct : String → Nat)
    (now npr maxT ovT startN : Nat) (blk : DocumentBlock)
    (struct : DocumentStructure) (opts : ChunkingOptions) :
    (splitOversizedBlock ct now blk maxT ovT startN struct opts).map eraseId
      = (splitOversizedBlock ct npr blk maxT ovT startN struct opts).map eraseId := by
  simp only [splitOversizedBlock]
  split
  · exact sentSplitLoopEraseId ct now npr maxT ovT blk struct opts _ _ _ _ _ _ rfl
  · simp only [splitByTokens]
    exact wordLoopEraseId ct now npr maxT ovT blk struct opts _ _ _ _ _ _ rfl

theorem ParagraphAwareStrategy.paChunkLoopEraseId (ct : String → Nat)
    (now npr maxT ovT minP maxP : Nat)
    (struct : DocumentStructure) (opts : ChunkingOptions) :
    ∀ (blocks cur : List DocumentBlock) (tok n : Nat) (chunks chunks' : List Chunk),
      chunks.map eraseId = chunks'.map eraseId →
      (chunkLoop ct now maxT ovT minP maxP struct opts blocks cur tok n chunks).map eraseId
        = (chunkLoop ct npr maxT ovT minP maxP struct opts blocks cur tok n chunks').map
            eraseId := by
  intro blocks
  induction blocks with
  | nil =>
    intro cur tok n chunks chunks' h
    simp only [chunkLoop]
    split
    · exact pushEraseIdBlocks ct now npr _ _ struct opts h
    · exact h
  | cons b rest ih =>
    intro cur tok n chunks chunks' h
    simp only [chunkLoop]
    split
    · have hsub := splitOversizedBlockEraseId ct now npr maxT ovT
        (if cur.length > 0 then n + 1 else n) b struct opts
      have hlen : (splitOversizedBlock ct now b maxT ovT
            (if cur.length > 0 then n + 1 else n) struct opts).length
          = (splitOversizedBlock ct npr b maxT ovT
            (if cur.length > 0 then n + 1 else n) struct opts).length := by
        have := congrArg List.length hsub
        simpa using this
      by_cases hcur : cur.length > 0
      · simp only [if_pos hcur]
        simp only [if_pos hcur] at hsub hlen
        rw [hlen]
        apply ih
        simp only [List.map_append, hsub]
        rw [h]
        rfl
      · simp only [if_neg hcur]
        simp only [if_neg hcur] at hsub hlen
        rw [hlen]
        apply ih
        simp only [List.map_append, hsub, h]
    · split
      · split
        · exact ih _ _ _ _ _ (pushEraseIdBlocks ct now npr _ _ struct opts h)
        · exact ih _ _ _ _ _ (pushEraseIdBlocks ct now npr _ _ struct opts h)
      · exact ih _ _ _ _ _ h

theorem SlidingWindowStrategy.swPushEraseId (ct : String → Nat) (now npr : Nat)
    (content : String) (number windowIndex : Nat) (struct : DocumentStructure)
    (opts : ChunkingOptions) {l l' : List Chunk}
    (h : l.map eraseId = l'.map eraseId) :
    (l ++ [createChunk ct now content number windowIndex struct opts]).map eraseId
      = (l' ++ [createChunk ct npr content number windowIndex struct opts]).map eraseId :=
  mapEraseIdAppendSingleton _ _ h rfl

theorem SlidingWindowStrategy.lastWindowBumpConcat (ct : String → Nat) (now : Nat)
    (content : String) (number wi : Nat) (struct : DocumentStructure)
    (opts : ChunkingOptions) (chunks : List Chunk) (posI : Int) :
    lastWindowBump (chunks ++ [createChunk ct now content number wi struct opts]) posI
      = if posI ≤ (wi : Int) then wi + 1 else posI.toNat := by
  simp only [lastWindowBump, List.getLast?_concat, createChunk]

theorem SlidingWindowStrategy.loopEraseId (ct : String → Nat) (now npr : Nat)
    (tokens : List String) (windowSize : Nat) (stepSize : Int) (pwb psb : Bool)
    (struct : DocumentStructure) (opts : ChunkingOptions) :
    ∀ (m position chunkNumber : Nat) (chunks chunks' : List Chunk),
      tokens.length - position ≤ m →
      chunks.map eraseId = chunks'.map eraseId →
      (loop ct now tokens windowSize stepSize pwb psb struct opts position chunkNumber
        chunks).map eraseId
        = (loop ct npr tokens windowSize stepSize pwb psb struct opts position chunkNumber
            chunks').map eraseId := by
  intro m
  induction m with
  | zero =>
    intro position chunkNumber chunks chunks' hm hmap
    have h : ¬ position < tokens.length := by omega
    conv_lhs => rw [loop]
    conv_rhs => rw [loop]
    simp only [dif_neg h]
    exact hmap
  | succ m ihm =>
    intro position chunkNumber chunks chunks' hm hmap
    by_cases h : position < tokens.length
    · conv_lhs => rw [loop]
      conv_rhs => rw [loop]
      simp only [dif_pos h]
      rw [lastWindowBumpConcat, lastWindowBumpConcat]
      refine ihm _ _ _ _ ?_ (swPushEraseId ct now npr _ _ _ struct opts hmap)
      split
      · omega
      · omega
    · conv_lhs => rw [loop]
      conv_rhs => rw [loop]
      simp only [dif_neg h]
      exact hmap

theorem SlidingWindowStrategy.swChunkEraseId (ct : String → Nat) (now npr : Nat)
    (struct : DocumentStructure) (options : ChunkingOptions) (gm : GlobalMetadata) :
    (chunk ct now struct options gm).map eraseId
      = (chunk ct npr struct options gm).map eraseId := by
  simp only [chunk]
  split
  · rfl
  · split
    · rfl
    · exact loopEraseId ct now npr _ _ _ _ _ struct _ _ _ _ _ _ (le_refl _) rfl

theorem FixedSizeStrategy.fsChunkEraseId (ct : String → Nat) (now npr : Nat)
    (struct : DocumentStructure) (options : ChunkingOptions) (gm : GlobalMetadata) :
    (chunk ct now struct options gm).map eraseId
      = (chunk ct npr struct options gm).map eraseId := by
  simp only [chunk]
  exact fsChunkLoopEraseId ct now npr _ _ struct _ _ _ _ _ _ _ rfl

theorem ParagraphAwareStrategy.paChunkEraseId (ct : String → Nat) (now npr : Nat)
    (struct : DocumentStructure) (options : ChunkingOptions) (gm : GlobalMetadata) :
    (chunk ct now struct options gm).map eraseId
      = (chunk ct npr struct options gm).map eraseId := by
  simp only [chunk]
  exact paChunkLoopEraseId ct now npr _ _ _ _ struct _ _ _ _ _ _ _ rfl

/-- Claim C4 counterexample: the fixed-size strategy invoked on identical
input at two different `Date.now()` readings returns different chunk
lists — the `id` field embeds the timestamp. -/
theorem claim_C4_counterexample :
    FixedSizeStrategy.chunk countTokensModel 0 exDoc {} exGm ≠
    FixedSizeStrategy.chunk countTokensModel 1 exDoc {} exGm := by
  decide

/-- Claim C4 (amended): for every strategy, two invocations of `chunk` on
an identical Document Structure, identical options, and identical global
metadata produce output identical in every field of every chunk except
`id`; the `id` differs exactly in its embedded `Date.now()` timestamp, so
outputs are fully identical only when the clock readings coincide. -/
theorem claim_C4_amended (countTokens : String → Nat) (t1 t2 : Nat)
    (struct : DocumentStructure) (options : ChunkingOptions) (gm : GlobalMetadata) :
    (FixedSizeStrategy.chunk countTokens t1 struct options gm).map eraseId
      = (FixedSizeStrategy.chunk countTokens t2 struct options gm).map eraseId ∧
    (HeadingAwareStrategy.chunk countTokens t1 struct options gm).map eraseId
      = (HeadingAwareStrategy.chunk countTokens t2 struct options gm).map eraseId ∧
    (ParagraphAwareStrategy.chunk countTokens t1 struct options gm).map eraseId
      = (ParagraphAwareStrategy.chunk countTokens t2 struct options gm).map eraseId ∧
    (SlidingWindowStrategy.chunk countTokens t1 struct options gm).map eraseId
      = (SlidingWindowStrategy.chunk countTokens t2 struct options gm).map eraseId :=
  ⟨FixedSizeStrategy.fsChunkEraseId countTokens t1 t2 struct options gm,
   HeadingAwareStrategy.haChunkEraseId countTokens t1 t2 struct options gm,
   ParagraphAwareStrategy.paChunkEraseId countTokens t1 t2 struct options gm,
   SlidingWindowStrategy.swChunkEraseId countTokens t1 t2 struct options gm⟩

/-! ## Claim C5: sliding-window progress -/

theorem SlidingWindowStrategy.createChunkWindowIndex (ct : String → Nat) (now : Nat)
    (content : String) (number wi : Nat) (struct : DocumentStructure)
    (opts : ChunkingOptions) :
    (createChunk ct now content number wi struct opts).metadata.windowIndex = some wi := rfl

theorem SlidingWindowStrategy.loopChain (ct : String → Nat) (now : Nat)
    (tokens : List String) (windowSize : Nat) (stepSize : Int) (pwb psb : Bool)
    (struct : DocumentStructure) (opts : ChunkingOptions) :
    ∀ (m position chunkNumber : Nat) (chunks : List Chunk),
      tokens.length - position ≤ m →
      (∀ c ∈ chunks, c.metadata.windowIndex.isSome
        ∧ c.metadata.windowIndex.getD 0 < position) →
      List.Chain' (fun a b => a.metadata.windowIndex.getD 0 < b.metadata.windowIndex.getD 0)
        chunks →
      List.Chain' (fun a b => a.metadata.windowIndex.getD 0 < b.metadata.windowIndex.getD 0)
        (loop ct now tokens windowSize stepSize pwb psb struct opts position chunkNumber
          chunks) ∧
      ∀ c ∈ loop ct now tokens windowSize stepSize pwb psb struct opts position chunkNumber
          chunks, c.metadata.windowIndex.isSome := by
  intro m
  induction m with
  | zero =>
    intro position chunkNumber chunks hm hinv hchain
    have h : ¬ position < tokens.length := by omega
    rw [loop]
    simp only [dif_neg h]
    exact ⟨hchain, fun c hc => (hinv c hc).1⟩
  | succ m ihm =>
    intro position chunkNumber chunks hm hinv hchain
    by_cases h : position < tokens.length
    · rw [loop]
      simp only [dif_pos h]
      rw [lastWindowBumpConcat]
      refine ihm _ _ _ ?_ ?_ ?_
      · split
        · omega
        · omega
      · intro c hc
        rcases List.mem_append.mp hc with hcm | hcm
        · have hi := hinv c hcm
          refine ⟨hi.1, ?_⟩
          have := hi.2
          split
          · omega
          · omega
        · rw [List.mem_singleton.mp hcm]
          rw [createChunkWindowIndex]
          refine ⟨rfl, ?_⟩
          simp only [Option.getD_some]
          split
          · omega
          · omega
      · rw [List.chain'_append]
        refine ⟨hchain, List.chain'_singleton _, ?_⟩
        intro x hx y hy
        simp only [List.head?_cons, Option.mem_def, Option.some.injEq] at hy
        obtain ⟨hne, hxl⟩ := List.mem_getLast?_eq_getLast hx
        have hxm : x ∈ chunks := hxl ▸ List.getLast_mem hne
        rw [← hy, createChunkWindowIndex]
        simp only [Option.getD_some]
        exact (hinv x hxm).2
    · rw [loop]
      simp only [dif_neg h]
      exact ⟨hchain, fun c hc => (hinv c hc).1⟩

/-- Claim C5: for every Document Structure and every options value
(including `overlapSize ≥ windowSize`), the sliding-window strategy's
recorded starting unit offsets (`windowIndex`) of successive chunks are
strictly increasing — the window start strictly advances on every
iteration, so the loop terminates (the function is total). -/
theorem claim_C5 (countTokens : String → Nat) (now : Nat)
    (struct : DocumentStructure) (options : ChunkingOptions) (gm : GlobalMetadata) :
    List.Chain' (fun a b => a.metadata.windowIndex.getD 0 < b.metadata.windowIndex.getD 0)
      (SlidingWindowStrategy.chunk countTokens now struct options gm) ∧
    ∀ c ∈ SlidingWindowStrategy.chunk countTokens now struct options gm,
      c.metadata.windowIndex.isSome := by
  simp only [SlidingWindowStrategy.chunk]
  split
  · simp
  · split
    · refine ⟨List.chain'_singleton _, ?_⟩
      intro c hc
      rw [List.mem_singleton.mp hc]
      rfl
    · exact SlidingWindowStrategy.loopChain countTokens now _ _ _ _ _ _ _
        (SlidingWindowStrategy.tokenizeText
          (SlidingWindowStrategy.buildTextStream struct)).length
        0 1 [] (by omega) (by simp) (by simp)

/-- Claim C5 witness: on the example document with default options the
strategy emits one chunk at offset 0, whose recorded offset is present;
the chain property holds on the emitted list. -/
theorem claim_C5_witness :
    (∀ c ∈ SlidingWindowStrategy.chunk countTokensModel 0 exDoc {} exGm,
      c.metadata.windowIndex.isSome) ∧
    (SlidingWindowStrategy.chunk countTokensModel 0 exDoc {} exGm).headI
      ∈ SlidingWindowStrategy.chunk countTokensModel 0 exDoc {} exGm :=
  ⟨(claim_C5 countTokensModel 0 exDoc {} exGm).2, by decide⟩

/-! ## Claim C6: oversized block with no sentence boundary -/

theorem sentAuxNoPunct :
    ∀ (l a : List Char), (∀ c ∈ l, isPunct c = false) → sentAux l a [] = [] := by
  intro l
  induction l with
  | nil => intro a _; simp [sentAux]
  | cons c cs ih =>
    intro a h
    have hc : isPunct c = false := h c (List.mem_cons_self c cs)
    simp only [sentAux, hc, Bool.false_eq_true, if_false, if_pos rfl]
    exact ih (c :: a) fun x hx => h x (List.mem_cons_of_mem c hx)

/-- A string with no sentence-ending punctuation yields a single
"sentence": the whole string. -/
theorem sentencesJSNoPunct (s : String) (h : ∀ c ∈ s.data, isPunct c = false) :
    sentencesJS s = [s] := by
  simp only [sentencesJS, sentenceRuns, sentAuxNoPunct s.data [] h]

theorem FixedSizeStrategy.sentenceLoopSupset (ct : String → Nat) (now maxT : Nat)
    (struct : DocumentStructure) (opts : ChunkingOptions) :
    ∀ (sentences : List String) (buf : String) (tok n : Nat) (chunks : List Chunk)
      (c : Chunk), c ∈ chunks →
      c ∈ (sentenceLoop ct now maxT struct opts sentences buf tok n chunks).1 := by
  intro sentences
  induction sentences with
  | nil => intro buf tok n chunks c hc; simpa [sentenceLoop] using hc
  | cons s rest ih =>
    intro buf tok n chunks c hc
    simp only [sentenceLoop]
    split
    · exact ih _ _ _ _ c (List.mem_append_left _ hc)
    · exact ih _ _ _ _ c hc

theorem FixedSizeStrategy.chunkLoopSupset (ct : String → Nat)
    (now maxT ovT : Nat) (struct : DocumentStructure) (opts : ChunkingOptions) :
    ∀ (blocks : List String) (cur : String) (tok n : Nat) (chunks : List Chunk)
      (c : Chunk), c ∈ chunks →
      c ∈ chunkLoop ct now maxT ovT struct opts blocks cur tok n chunks := by
  intro blocks
  induction blocks with
  | nil =>
    intro cur tok n chunks c hc
    simp only [chunkLoop]
    split
    · exact List.mem_append_left _ hc
    · exact hc
  | cons b rest ih =>
    intro cur tok n chunks c hc
    simp only [chunkLoop]
    split
    · by_cases hcur : cur ≠ ""
      · simp only [if_pos hcur]
        split
        · exact ih _ _ _ _ c
            (sentenceLoopSupset ct now maxT struct opts _ _ _ _ _ c
              (List.mem_append_left _ hc))
        · exact ih _ _ _ _ c (List.mem_append_left _ (List.mem_append_left _ hc))
      · simp only [if_neg hcur]
        split
        · exact ih _ _ _ _ c (sentenceLoopSupset ct now maxT struct opts _ _ _ _ _ c hc)
        · exact ih _ _ _ _ c (List.mem_append_left _ hc)
    · split
      · exact ih _ _ _ _ c (List.mem_append_left _ hc)
      · exact ih _ _ _ _ c hc

theorem FixedSizeStrategy.chunkLoopOversized (ct : String → Nat)
    (now maxT ovT : Nat) (struct : DocumentStructure) (opts : ChunkingOptions)
    (s : String)
    (hover : ct (trimJS s) > maxT)
    (hnop : ∀ c ∈ (stripTags (trimJS s)).data, isPunct c = false) :
    ∀ (blocks : List String), s ∈ blocks → ∀ (cur : String) (tok n : Nat)
      (chunks : List Chunk),
      trimJS s ∈ (chunkLoop ct now maxT ovT struct opts blocks cur tok n chunks).map
        Chunk.content := by
  intro blocks
  induction blocks with
  | nil => intro h; simp at h
  | cons x rest ih =>
    intro hmem cur tok n chunks
    rcases List.mem_cons.mp hmem with heq | hmem'
    · subst heq
      simp only [chunkLoop]
      rw [if_pos hover]
      rw [sentencesJSNoPunct _ hnop]
      rw [if_neg (by simp)]
      refine List.mem_map.mpr ⟨createChunk ct now (trimJS s)
        ((if cur ≠ "" then (chunks ++ [createChunk ct now cur n struct opts], n + 1)
          else (chunks, n)).2) struct opts, ?_, rfl⟩
      apply chunkLoopSupset
      exact List.mem_append_right _ (List.mem_singleton_self _)
    · simp only [chunkLoop]
      split
      · by_cases hcur : cur ≠ ""
        · simp only [if_pos hcur]
          split
          · exact ih hmem' _ _ _ _
          · exact ih hmem' _ _ _ _
        · simp only [if_neg hcur]
          split
          · exact ih hmem' _ _ _ _
          · exact ih hmem' _ _ _ _
      · split
        · exact ih hmem' _ _ _ _
        · exact ih hmem' _ _ _ _

/-- Claim C6: in the fixed-size strategy, a block whose (trimmed) markup
exceeds `maxTokens` and whose tag-stripped plain text contains no
sentence-ending punctuation is emitted whole: some chunk's `content` is
exactly the block's trimmed markup — no error, no dropped characters, no
character-level truncation (its token count may exceed `maxTokens`). -/
theorem claim_C6 (countTokens : String → Nat) (now : Nat)
    (struct : DocumentStructure) (options : ChunkingOptions) (gm : GlobalMetadata)
    (b : DocumentBlock) (hb : b ∈ struct.blocks)
    (hover : countTokens (trimJS b.html) >
      (mergeOptions FixedSizeStrategy.defaultOptions options).maxTokens.getD 1000)
    (hnop : ∀ c ∈ (stripTags (trimJS b.html)).data, isPunct c = false) :
    trimJS b.html ∈ (FixedSizeStrategy.chunk countTokens now struct options gm).map
      Chunk.content := by
  simp only [FixedSizeStrategy.chunk]
  exact FixedSizeStrategy.chunkLoopOversized countTokens now _ _ struct _ b.html hover hnop
    _ (List.mem_map_of_mem _ hb) "" 0 1 []

/-- Claim C6 witness: a five-word block with no punctuation and a token
budget of 3 is emitted whole as one oversized chunk. -/
theorem claim_C6_witness :
    (exParagraph ∈ exDoc.blocks) ∧
    (countTokensModel (trimJS exParagraph.html) >
      (mergeOptions FixedSizeStrategy.defaultOptions { maxTokens := some 3 }).maxTokens.getD
        1000) ∧
    (∀ c ∈ (stripTags (trimJS exParagraph.html)).data, isPunct c = false) ∧
    trimJS exParagraph.html ∈
      (FixedSizeStrategy.chunk countTokensModel 0 exDoc { maxTokens := some 3 } exGm).map
        Chunk.content :=
  ⟨by decide, by decide, by decide,
    claim_C6 countTokensModel 0 exDoc { maxTokens := some 3 } exGm exParagraph
      (by decide) (by decide) (by decide)⟩

/-! ## Claim C7: word-level packing splits only at whitespace -/

theorem ParagraphAwareStrategy.wordLoopWords (ct : String → Nat) (now maxT ovT : Nat)
    (blk : DocumentBlock) (struct : DocumentStructure) (opts : ChunkingOptions)
    (full : List String) :
    ∀ (ws curWords consumed : List String) (tok n : Nat) (chunks : List Chunk),
      consumed ++ ws = full →
      (∃ t, t ++ curWords = consumed) →
      (∀ c ∈ chunks, WordRunChunk full c) →
      ∀ c ∈ wordLoop ct now maxT ovT blk struct opts ws curWords tok n chunks,
        WordRunChunk full c := by
  intro ws
  induction ws with
  | nil =>
    intro curWords consumed tok n chunks hfull hsuf hacc c hc
    simp only [wordLoop] at hc
    split at hc
    · rename_i hlen
      rcases List.mem_append.mp hc with h | h
      · exact hacc c h
      · rw [List.mem_singleton.mp h]
        refine ⟨curWords, ?_, ?_, rfl⟩
        · intro hnil; rw [hnil] at hlen; simp at hlen
        · obtain ⟨t, ht⟩ := hsuf
          refine ⟨t, [], ?_⟩
          rw [← hfull, ← ht]
    · exact hacc c hc
  | cons w rest ih =>
    intro curWords consumed tok n chunks hfull hsuf hacc c hc
    simp only [wordLoop] at hc
    split at hc
    · rename_i hcond
      have hcw : curWords ≠ [] := by
        intro hnil; rw [hnil] at hcond; simp at hcond
      have hemit : WordRunChunk full
          (createChunkFromContent ct now ("<p>" ++ joinSep " " curWords ++ "</p>") n
            struct blk opts) := by
        refine ⟨curWords, hcw, ?_, rfl⟩
        obtain ⟨t, ht⟩ := hsuf
        refine ⟨t, w :: rest, ?_⟩
        rw [← hfull, ← ht]
      split at hc
      · obtain ⟨hne, ⟨t', ht'⟩, _⟩ :=
          overlapTailSpec (fun x => ct (x ++ " ")) ovT curWords hcw
        refine ih _ (consumed ++ [w]) _ _ _ (by rw [← hfull]; simp) ?_ ?_ c hc
        · obtain ⟨t, ht⟩ := hsuf
          refine ⟨t ++ t', ?_⟩
          rw [List.append_assoc, ← List.append_assoc t']
          rw [show t' ++ getOverlapWords ct curWords ovT = curWords from ht', ← ht]
          simp
        · intro c' hc'
          rcases List.mem_append.mp hc' with h | h
          · exact hacc c' h
          · rw [List.mem_singleton.mp h]
            exact hemit
      · refine ih _ (consumed ++ [w]) _ _ _ (by rw [← hfull]; simp) ?_ ?_ c hc
        · exact ⟨consumed, rfl⟩
        · intro c' hc'
          rcases List.mem_append.mp hc' with h | h
          · exact hacc c' h
          · rw [List.mem_singleton.mp h]
            exact hemit
    · refine ih _ (consumed ++ [w]) _ _ _ (by rw [← hfull]; simp) ?_ hacc c hc
      obtain ⟨t, ht⟩ := hsuf
      refine ⟨t, ?_⟩
      rw [← List.append_assoc, ht]

theorem ParagraphAwareStrategy.splitOversizedWords (ct : String → Nat)
    (now maxT ovT startN : Nat) (struct : DocumentStructure) (opts : ChunkingOptions)
    (b : DocumentBlock) (hnop : ∀ c ∈ b.text.data, isPunct c = false) :
    ∀ c ∈ splitOversizedBlock ct now b maxT ovT startN struct opts,
      WordRunChunk (splitWsJS b.text) c := by
  intro c hc
  simp only [splitOversizedBlock, sentencesJSNoPunct _ hnop] at hc
  rw [if_neg (by simp)] at hc
  simp only [splitByTokens] at hc
  exact wordLoopWords ct now maxT ovT b struct opts (splitWsJS b.text)
    (splitWsJS b.text) [] [] 0 startN [] rfl ⟨[], rfl⟩ (by simp) c hc

/-- Claim C7: for a single paragraph-like block whose token count exceeds
`maxTokens` and whose text contains no sentence-ending punctuation, every
chunk the paragraph-aware strategy emits is a non-empty contiguous run of
whole whitespace-delimited words of the block's text wrapped in one
paragraph tag — no chunk starts or ends in the middle of a word. -/
theorem claim_C7 (countTokens : String → Nat) (now : Nat)
    (options : ChunkingOptions) (gm : GlobalMetadata) (b : DocumentBlock)
    (sf st : String)
    (hty : b.type = DocumentBlockType.paragraph ∨ b.type = DocumentBlockType.listItem ∨
      b.type = DocumentBlockType.other)
    (hover : countTokens b.html >
      (mergeOptions ParagraphAwareStrategy.defaultOptions options).maxTokens.getD 1000)
    (hnop : ∀ c ∈ b.text.data, isPunct c = false) :
    ∀ c ∈ ParagraphAwareStrategy.chunk countTokens now
        { blocks := [b], sourceFile := sf, sourceType := st } options gm,
      WordRunChunk (splitWsJS b.text) c := by
  intro c hc
  simp only [ParagraphAwareStrategy.chunk] at hc
  have hfil : ([b].filter fun bb =>
      bb.type = DocumentBlockType.paragraph ∨ bb.type = DocumentBlockType.listItem ∨
        bb.type = DocumentBlockType.other) = [b] := by
    rcases hty with h | h | h <;> simp [List.filter_cons, h]
  rw [hfil] at hc
  simp only [ParagraphAwareStrategy.chunkLoop] at hc
  rw [if_pos hover] at hc
  norm_num at hc
  exact ParagraphAwareStrategy.splitOversizedWords countTokens now _ _ _ _ _ b hnop c hc

/-- Claim C10 witness: the characterization applied to concrete unit
lists with budget 5. -/
theorem claim_C10_witness :
    ([exParagraph] ≠ ([] : List DocumentBlock)) ∧ (["a."] ≠ ([] : List String)) ∧
    (["w1"] ≠ ([] : List String)) ∧
    (OverlapSpec (fun b => countTokensModel b.html) 5 [exParagraph]
      (HeadingAwareStrategy.getOverlapBlocks countTokensModel [exParagraph] 5) ∧
     OverlapSpec countTokensModel 5 ["a."]
      (HeadingAwareStrategy.getOverlapSentences countTokensModel ["a."] 5) ∧
     OverlapSpec (fun b => countTokensModel b.html) 5 [exParagraph]
      (ParagraphAwareStrategy.getOverlapBlocks countTokensModel [exParagraph] 5) ∧
     OverlapSpec countTokensModel 5 ["a."]
      (ParagraphAwareStrategy.getOverlapSentences countTokensModel ["a."] 5) ∧
     OverlapSpec (fun w => countTokensModel (w ++ " ")) 5 ["w1"]
      (ParagraphAwareStrategy.getOverlapWords countTokensModel ["w1"] 5)) :=
  ⟨by decide, by decide, by decide,
    claim_C10 countTokensModel 5 [exParagraph] ["a."] ["w1"] (by decide) (by decide)
      (by decide)⟩

/-- Claim C7 witness: the word-run shape, checked on the first chunk the
paragraph-aware strategy emits for an oversized punctuation-free block
under a budget of 3. -/
theorem claim_C7_witness :
    (exParagraph.type = DocumentBlockType.paragraph ∨
      exParagraph.type = DocumentBlockType.listItem ∨
      exParagraph.type = DocumentBlockType.other) ∧
    (countTokensModel exParagraph.html >
      (mergeOptions ParagraphAwareStrategy.defaultOptions
        { maxTokens := some 3 }).maxTokens.getD 1000) ∧
    (∀ c ∈ exParagraph.text.data, isPunct c = false) ∧
    WordRunChunk (splitWsJS exParagraph.text)
      ((ParagraphAwareStrategy.chunk countTokensModel 0
        { blocks := [exParagraph], sourceFile := "doc.pdf", sourceType := "pdf" }
        { maxTokens := some 3 } exGm).headI) :=
  ⟨by decide, by decide, by decide,
    claim_C7 countTokensModel 0 { maxTokens := some 3 } exGm exParagraph "doc.pdf" "pdf"
      (by decide) (by decide) (by decide) _ (by decide)⟩

/-! ## Claim C8: heading-aware section paths -/

theorem HeadingAwareStrategy.buildSectionsLoopNoHeading :
    ∀ (rest : List DocumentBlock) (stack : List (DocumentBlock × List String))
      (s : Section) (secs : List Section),
      (∀ b ∈ rest, b.type ≠ DocumentBlockType.heading ∧
        b.type ≠ DocumentBlockType.slideTitle) →
      buildSectionsLoop rest stack (some s) secs
        = closeSection (some { s with blocks := s.blocks ++ rest }) secs := by
  intro rest
  induction rest with
  | nil => intro stack s secs _; simp [buildSectionsLoop]
  | cons b rest ih =>
    intro stack s secs h
    have hb := h b (List.mem_cons_self b rest)
    simp only [buildSectionsLoop]
    rw [if_neg (by simp [hb.1, hb.2])]
    rw [ih stack _ secs fun x hx => h x (List.mem_cons_of_mem b hx)]
    simp [List.append_assoc]

theorem HeadingAwareStrategy.buildSectionsABC (rest : List DocumentBlock)
    (hrest : ∀ b ∈ rest, b.type ≠ DocumentBlockType.heading ∧
      b.type ≠ DocumentBlockType.slideTitle) :
    buildSections ([exHeadA, exHeadB, exHeadC] ++ rest)
      = closeSection (some (exSectionC rest)) [] := by
  have h1 : buildSections ([exHeadA, exHeadB, exHeadC] ++ rest)
      = buildSectionsLoop rest
          [(exHeadA, ["A"]), (exHeadB, ["A", "B"]), (exHeadC, ["A", "B", "C"])]
          (some (exSectionC [])) [] := by
    simp [buildSections, buildSectionsLoop, popStack, closeSection, exHeadA, exHeadB,
      exHeadC, exSectionC]
  rw [h1, buildSectionsLoopNoHeading rest _ _ _ hrest]
  simp [exSectionC]

/-- Claim C8: for a document whose blocks are the nested headings
"A" (level 1), "B" (level 2), "C" (level 3) followed by any non-empty run
of non-heading blocks, every chunk the heading-aware strategy produces
carries section path `["A", "B", "C"]` — the builder popped no ancestor
(each level is deeper) and the path is the ancestor heading texts plus the
new heading's text. -/
theorem claim_C8 (countTokens : String → Nat) (now : Nat) (options : ChunkingOptions)
    (gm : GlobalMetadata) (sf st : String) (rest : List DocumentBlock)
    (hrest : ∀ b ∈ rest, b.type ≠ DocumentBlockType.heading ∧
      b.type ≠ DocumentBlockType.slideTitle)
    (hne : rest ≠ []) :
    ∀ c ∈ HeadingAwareStrategy.chunk countTokens now
        { blocks := [exHeadA, exHeadB, exHeadC] ++ rest, sourceFile := sf,
          sourceType := st } options gm,
      c.metadata.sectionPath = some ["A", "B", "C"] := by
  intro c hc
  simp only [HeadingAwareStrategy.chunk] at hc
  rw [HeadingAwareStrategy.buildSectionsABC rest hrest] at hc
  have hrne : 0 < rest.length := List.length_pos.mpr hne
  simp only [HeadingAwareStrategy.closeSection, exSectionC, List.nil_append] at hc
  rw [if_pos hrne] at hc
  rw [if_neg (by simp)] at hc
  simp only [HeadingAwareStrategy.sectionLoop, List.nil_append] at hc
  exact @HeadingAwareStrategy.chunkSectionP countTokens now
    ((mergeOptions HeadingAwareStrategy.defaultOptions options).maxTokens.getD 1000)
    ((mergeOptions HeadingAwareStrategy.defaultOptions options).overlapTokens.getD 150)
    ((mergeOptions HeadingAwareStrategy.defaultOptions options).minChunkTokens.getD 200)
    ((mergeOptions HeadingAwareStrategy.defaultOptions options).subChunkingStrategy.getD
      "paragraph")
    1
    { heading := some exHeadC, blocks := rest, level := 3, sectionPath := ["A", "B", "C"] }
    { blocks := [exHeadA, exHeadB, exHeadC] ++ rest, sourceFile := sf, sourceType := st }
    (mergeOptions HeadingAwareStrategy.defaultOptions options)
    (fun c => c.metadata.sectionPath = some ["A", "B", "C"])
    (fun content number => rfl) c hc

/-- Claim C8 witness: the scenario instantiated with a single paragraph
under heading "C". -/
theorem claim_C8_witness :
    (∀ b ∈ [exParagraph], b.type ≠ DocumentBlockType.heading ∧
      b.type ≠ DocumentBlockType.slideTitle) ∧
    ([exParagraph] ≠ ([] : List DocumentBlock)) ∧
    ∀ c ∈ HeadingAwareStrategy.chunk countTokensModel 0
        { blocks := [exHeadA, exHeadB, exHeadC] ++ [exParagraph], sourceFile := "doc.pdf",
          sourceType := "pdf" } {} exGm,
      c.metadata.sectionPath = some ["A", "B", "C"] :=
  ⟨by decide, by decide,
    claim_C8 countTokensModel 0 {} exGm "doc.pdf" "pdf" [exParagraph] (by decide)
      (by decide)⟩

/-! ## String facts used for the heading-free comparison and order
preservation -/

theorem strEmptyAppend (s : String) : "" ++ s = s :=
  String.ext (by simp [String.data_append])

theorem memDropWhileOfNot (p : α → Bool) (l : List α) (x : α) (hx : x ∈ l)
    (hpx : p x = false) : x ∈ l.dropWhile p := by
  induction l with
  | nil => simp at hx
  | cons a l ih =>
    rw [List.dropWhile_cons]
    by_cases hpa : p a
    · simp only [hpa, if_true]
      rcases List.mem_cons.mp hx with h | h
      · rw [h] at hpx; rw [hpx] at hpa; simp at hpa
      · exact ih h
    · simp only [hpa, Bool.false_eq_true, if_false]
      exact hx

theorem trimJSNeEmptyOfNonWs (s : String) (c : Char) (hc : c ∈ s.data)
    (hw : isWs c = false) : trimJS s ≠ "" := by
  intro h
  have hdata : trimCh s.data = [] := congrArg String.data h
  simp only [trimCh, List.reverse_eq_nil_iff] at hdata
  have h2 := List.dropWhile_eq_nil_iff.mp hdata
  have hc1 : c ∈ (s.data.dropWhile isWs).reverse :=
    List.mem_reverse.mpr (memDropWhileOfNot isWs s.data c hc hw)
  have := h2 c hc1
  rw [hw] at this
  simp at this

theorem existsNonWsOfTrimStable (s : String) (h1 : trimJS s = s) (h2 : s ≠ "") :
    ∃ c ∈ s.data, isWs c = false := by
  by_contra hall
  push_neg at hall
  have hws : ∀ c ∈ s.data, isWs c = true := by
    intro c hc
    cases h : isWs c
    · exact absurd h (hall c hc)
    · rfl
  have : trimJS s = "" := by
    apply String.ext
    show trimCh s.data = []
    simp only [trimCh, List.reverse_eq_nil_iff]
    rw [List.dropWhile_eq_nil_iff.mpr hws]
    simp
  exact h2 (by rw [← h1, this])

theorem memJoinSepHead (sep x : String) (l : List String) (c : Char)
    (hc : c ∈ x.data) : c ∈ (joinSep sep (x :: l)).data := by
  cases l with
  | nil => simpa [joinSep] using hc
  | cons y ys =>
    simp only [joinSep, String.data_append, List.mem_append]
    exact Or.inl (Or.inl hc)

theorem glueFoldJoin : ∀ (l : List String) (cur : String), cur ≠ "" →
    glueFold cur l = joinSep "\n" (cur :: l) := by
  intro l
  induction l with
  | nil => intro cur _; simp [glueFold, joinSep]
  | cons b rest ih =>
    intro cur hcur
    simp only [glueFold, if_pos hcur]
    have hne : cur ++ "\n" ++ b ≠ "" := by
      intro h
      have hlen := congrArg String.length h
      simp only [String.length_append] at hlen
      have hnl : ("\n" : String).length = 1 := rfl
      have h0 : ("" : String).length = 0 := rfl
      omega
    rw [ih _ hne]
    cases rest with
    | nil => simp [joinSep]
    | cons y ys => simp [joinSep, String.append_assoc]

theorem glueFoldEmptyCons (b : String) (rest : List String) :
    glueFold "" (b :: rest) = glueFold b rest := by
  simp only [glueFold]
  rw [if_neg (fun h => h rfl)]
  simp only [strEmptyAppend]

theorem mergedMaxTokensGetD (d options : ChunkingOptions) (hd : d.maxTokens = some 1000) :
    (mergeOptions d options).maxTokens.getD 1000 = options.maxTokens.getD 1000 := by
  cases h : options.maxTokens <;> simp [mergeOptions, Option.orElse, h, hd]

/-! ## Claim C2: heading-free documents -/

theorem FixedSizeStrategy.chunkLoopAllFit (ct : String → Nat) (now maxT ovT : Nat)
    (struct : DocumentStructure) (opts : ChunkingOptions) :
    ∀ (blocks : List String) (cur : String) (tok n : Nat) (chunks : List Chunk),
      (∀ s ∈ blocks, trimJS s = s) →
      tok + (blocks.map ct).sum ≤ maxT →
      chunkLoop ct now maxT ovT struct opts blocks cur tok n chunks
        = if trimJS (glueFold cur blocks) ≠ "" then
            chunks ++ [createChunk ct now (glueFold cur blocks) n struct opts]
          else chunks := by
  intro blocks
  induction blocks with
  | nil =>
    intro cur tok n chunks _ _
    simp only [chunkLoop, glueFold]
  | cons b rest ih =>
    intro cur tok n chunks htrim hsum
    have hb : trimJS b = b := htrim b (List.mem_cons_self b rest)
    simp only [List.map_cons, List.sum_cons] at hsum
    simp only [chunkLoop, hb]
    rw [if_neg (by omega)]
    rw [if_neg (by rintro ⟨h1, -⟩; omega)]
    rw [ih _ _ _ _ (fun s hs => htrim s (List.mem_cons_of_mem b hs)) (by omega)]
    rfl

theorem HeadingAwareStrategy.fallbackLoopAllFit (ct : String → Nat) (now maxT : Nat)
    (struct : DocumentStructure) (opts : ChunkingOptions) :
    ∀ (blocks cur : List DocumentBlock) (tok n : Nat) (chunks : List Chunk),
      (∀ b ∈ blocks, b.type ≠ DocumentBlockType.heading ∧
        b.type ≠ DocumentBlockType.slideTitle) →
      tok + (blocks.map fun b => ct b.html).sum ≤ maxT →
      fallbackLoop ct now maxT struct opts blocks cur tok n chunks
        = if 0 < (cur ++ blocks).length then
            chunks ++ [createChunk ct now
              (joinSep "\n" ((cur ++ blocks).map fun b => b.html)) n []
              { heading := none, blocks := cur ++ blocks, level := 0, sectionPath := [] }
              struct opts]
          else chunks := by
  intro blocks
  induction blocks with
  | nil =>
    intro cur tok n chunks _ _
    simp only [fallbackLoop, List.append_nil]
  | cons b rest ih =>
    intro cur tok n chunks hhead hsum
    have hb := hhead b (List.mem_cons_self b rest)
    simp only [List.map_cons, List.sum_cons] at hsum
    simp only [fallbackLoop]
    rw [if_neg (by simp [hb.1, hb.2])]
    rw [if_neg (by rintro ⟨h1, -⟩; omega)]
    rw [ih _ _ _ _ (fun x hx => hhead x (List.mem_cons_of_mem b hx)) (by omega)]
    simp [List.append_assoc]

theorem HeadingAwareStrategy.buildSectionsNoHeadingCons (b : DocumentBlock)
    (rest : List DocumentBlock)
    (h : ∀ x ∈ b :: rest, x.type ≠ DocumentBlockType.heading ∧
      x.type ≠ DocumentBlockType.slideTitle) :
    buildSections (b :: rest)
      = [{ heading := none, blocks := b :: rest, level := 0, sectionPath := [] }] := by
  have hb := h b (List.mem_cons_self b rest)
  simp only [buildSections, buildSectionsLoop]
  rw [if_neg (by simp [hb.1, hb.2])]
  rw [buildSectionsLoopNoHeading rest _ _ _ (fun x hx => h x (List.mem_cons_of_mem b hx))]
  simp [closeSection]

/-- Claim C2 counterexample: a heading-free two-paragraph document on
which a mid-stream flush occurs.  The fixed-size strategy seeds a word
tail of the flushed chunk into the second chunk, the heading-aware
fallback does not, so the ordered chunk contents differ. -/
theorem claim_C2_counterexample :
    (∀ b ∈ exDoc2.blocks, b.type ≠ DocumentBlockType.heading ∧
      b.type ≠ DocumentBlockType.slideTitle) ∧
    (HeadingAwareStrategy.chunk countTokensModel 0 exDoc2
        { maxTokens := some 12, overlapTokens := some 4 } exGm).map Chunk.content
      ≠ (FixedSizeStrategy.chunk countTokensModel 0 exDoc2
        { maxTokens := some 12, overlapTokens := some 4 } exGm).map Chunk.content :=
  ⟨by decide, by decide⟩

/-- Claim C2 (amended): on a Document Structure with no Heading and no
SlideTitle block, the heading-aware strategy falls back to a simplified
greedy packing without overlap seeding and without sentence splitting;
its chunk boundaries coincide with the fixed-size strategy's when every
block's markup is trim-stable and non-empty and the whole document fits
within `maxTokens` — both then emit the single chunk joining all block
markup with newlines. -/
theorem claim_C2_amended (countTokens : String → Nat) (now : Nat)
    (struct : DocumentStructure) (options : ChunkingOptions) (gm : GlobalMetadata)
    (hnoheads : ∀ b ∈ struct.blocks, b.type ≠ DocumentBlockType.heading ∧
      b.type ≠ DocumentBlockType.slideTitle)
    (htrim : ∀ b ∈ struct.blocks, trimJS b.html = b.html ∧ b.html ≠ "")
    (hfits : (struct.blocks.map fun b => countTokens b.html).sum ≤
      options.maxTokens.getD 1000) :
    (HeadingAwareStrategy.chunk countTokens now struct options gm).map Chunk.content
      = (FixedSizeStrategy.chunk countTokens now struct options gm).map Chunk.content := by
  cases hbl : struct.blocks with
  | nil =>
    simp only [HeadingAwareStrategy.chunk, FixedSizeStrategy.chunk, hbl]
    rw [show HeadingAwareStrategy.buildSections [] = [] from rfl]
    simp only [List.length_nil, List.map_nil]
    rw [if_pos (Or.inl trivial)]
    simp only [HeadingAwareStrategy.fallbackToParagraphChunking, hbl]
    rw [HeadingAwareStrategy.fallbackLoopAllFit countTokens now _ struct _ [] [] 0 1 []
      (by simp) (by simp)]
    rw [FixedSizeStrategy.chunkLoopAllFit countTokens now _ _ struct _ [] "" 0 1 []
      (by simp) (by simp)]
    have ht : trimJS "" = "" := rfl
    simp [glueFold, ht]
  | cons b rest =>
    rw [hbl] at hnoheads htrim hfits
    have hbt := htrim b (List.mem_cons_self b rest)
    -- the heading-aware side
    have hHA : (HeadingAwareStrategy.chunk countTokens now struct options gm).map
        Chunk.content = [joinSep "\n" ((b :: rest).map fun x => x.html)] := by
      simp only [HeadingAwareStrategy.chunk, hbl]
      rw [HeadingAwareStrategy.buildSectionsNoHeadingCons b rest hnoheads]
      rw [if_pos (by simp)]
      simp only [HeadingAwareStrategy.fallbackToParagraphChunking, hbl]
      rw [HeadingAwareStrategy.fallbackLoopAllFit countTokens now _ struct _ (b :: rest)
        [] 0 1 [] hnoheads
        (by
          rw [mergedMaxTokensGetD HeadingAwareStrategy.defaultOptions options rfl]
          omega)]
      rw [if_pos (by simp)]
      simp [HeadingAwareStrategy.createChunk]
    -- the fixed-size side
    have hFS : (FixedSizeStrategy.chunk countTokens now struct options gm).map
        Chunk.content = [glueFold "" ((b :: rest).map fun x => x.html)] := by
      simp only [FixedSizeStrategy.chunk, hbl]
      rw [FixedSizeStrategy.chunkLoopAllFit countTokens now _ _ struct _
        ((b :: rest).map fun x => x.html) "" 0 1 []
        (by
          intro s hs
          obtain ⟨x, hx, hxs⟩ := List.mem_map.mp hs
          rw [← hxs]
          exact (htrim x hx).1)
        (by
          rw [mergedMaxTokensGetD FixedSizeStrategy.defaultOptions options rfl]
          rw [List.map_map]
          simpa using hfits)]
      rw [if_pos ?_]
      · simp [FixedSizeStrategy.createChunk]
      · simp only [List.map_cons]
        rw [glueFoldEmptyCons, glueFoldJoin _ _ hbt.2]
        obtain ⟨c, hc, hcw⟩ := existsNonWsOfTrimStable b.html hbt.1 hbt.2
        exact trimJSNeEmptyOfNonWs _ c (memJoinSepHead "\n" _ _ c hc) hcw
    rw [hHA, hFS]
    simp only [List.map_cons]
    rw [glueFoldEmptyCons, glueFoldJoin _ _ hbt.2]

/-- Claim C2 amended witness: the amended equality on the heading-free
two-block document under default options (everything fits one chunk). -/
theorem claim_C2_amended_witness :
    (∀ b ∈ exDoc2.blocks, b.type ≠ DocumentBlockType.heading ∧
      b.type ≠ DocumentBlockType.slideTitle) ∧
    (∀ b ∈ exDoc2.blocks, trimJS b.html = b.html ∧ b.html ≠ "") ∧
    ((exDoc2.blocks.map fun b => countTokensModel b.html).sum ≤
      ({} : ChunkingOptions).maxTokens.getD 1000) ∧
    (HeadingAwareStrategy.chunk countTokensModel 0 exDoc2 {} exGm).map Chunk.content
      = (FixedSizeStrategy.chunk countTokensModel 0 exDoc2 {} exGm).map Chunk.content :=
  ⟨by decide, by decide, by decide,
    claim_C2_amended countTokensModel 0 exDoc2 {} exGm (by decide) (by decide) (by decide)⟩

/-! ## Claim C3: order preservation -/

theorem strAppendAssoc (a b c : String) : a ++ b ++ c = a ++ (b ++ c) :=
  String.ext (by simp [String.data_append, List.append_assoc])

theorem strAppendEmpty (s : String) : s ++ "" = s :=
  String.ext (by simp [String.data_append])

theorem concatContentsAppend (l1 l2 : List Chunk) :
    concatContents (l1 ++ l2) = concatContents l1 ++ concatContents l2 := by
  induction l1 with
  | nil => simp [concatContents, strEmptyAppend]
  | cons c cs ih =>
    show c.content ++ concatContents (cs ++ l2)
      = c.content ++ concatContents cs ++ concatContents l2
    rw [ih, ← strAppendAssoc]

theorem containsInOrderAppendRight :
    ∀ (ps : List String) (s t : String), ContainsInOrder ps s →
      ContainsInOrder ps (s ++ t) := by
  intro ps
  induction ps with
  | nil => intro s t _; trivial
  | cons p ps ih =>
    intro s t h
    obtain ⟨pre, rest, heq, hrec⟩ := h
    exact ⟨pre, rest ++ t, by rw [heq, strAppendAssoc, strAppendAssoc], ih rest t hrec⟩

theorem containsInOrderSnoc :
    ∀ (ps : List String) (s t q : String), ContainsInOrder ps s →
      ContainsInOrder (ps ++ [q]) (s ++ t ++ q) := by
  intro ps
  induction ps with
  | nil =>
    intro s t q _
    exact ⟨s ++ t, "", by rw [strAppendEmpty], trivial⟩
  | cons p ps ih =>
    intro s t q h
    obtain ⟨pre, rest, heq, hrec⟩ := h
    refine ⟨pre, rest ++ t ++ q, ?_, ih rest t q hrec⟩
    rw [heq]
    apply String.ext
    simp [String.data_append, List.append_assoc]

theorem FixedSizeStrategy.chunkLoopOrder (ct : String → Nat) (now maxT ovT : Nat)
    (struct : DocumentStructure) (opts : ChunkingOptions) :
    ∀ (blocks processed : List String) (cur : String) (tok n : Nat)
      (chunks : List Chunk),
      (∀ s ∈ blocks, trimJS s = s ∧ s ≠ "" ∧ ct s ≤ maxT) →
      ContainsInOrder processed (concatContents chunks ++ cur) →
      (processed ≠ [] → ∃ c ∈ cur.data, isWs c = false) →
      ContainsInOrder (processed ++ blocks)
        (concatContents (chunkLoop ct now maxT ovT struct opts blocks cur tok n chunks)) := by
  intro blocks
  induction blocks with
  | nil =>
    intro processed cur tok n chunks _ h1 h2
    simp only [chunkLoop, List.append_nil]
    by_cases hp : processed = []
    · subst hp
      split
      · trivial
      · trivial
    · obtain ⟨c, hc, hcw⟩ := h2 hp
      rw [if_pos (trimJSNeEmptyOfNonWs cur c hc hcw)]
      rw [concatContentsAppend]
      have hsingle : concatContents [createChunk ct now cur n struct opts] = cur := by
        simp only [concatContents]
        exact strAppendEmpty _
      rw [hsingle]
      exact h1
  | cons b rest ih =>
    intro processed cur tok n chunks hall h1 h2
    have hb := hall b (List.mem_cons_self b rest)
    have hrest : ∀ s ∈ rest, trimJS s = s ∧ s ≠ "" ∧ ct s ≤ maxT :=
      fun s hs => hall s (List.mem_cons_of_mem b hs)
    obtain ⟨cb, hcb, hcbw⟩ := existsNonWsOfTrimStable b hb.1 hb.2.1
    simp only [chunkLoop, hb.1]
    rw [if_neg (by omega)]
    by_cases hflush : tok + ct b > maxT ∧ cur ≠ ""
    · rw [if_pos hflush]
      have hsnoc := containsInOrderSnoc processed (concatContents chunks ++ cur)
        (joinSep " " (sliceNegJS (ovT / 2) (splitWsJS cur)) ++ "\n") b h1
      have heq : concatContents chunks ++ cur ++
          (joinSep " " (sliceNegJS (ovT / 2) (splitWsJS cur)) ++ "\n") ++ b
          = concatContents (chunks ++ [createChunk ct now cur n struct opts]) ++
            (joinSep " " (sliceNegJS (ovT / 2) (splitWsJS cur)) ++ "\n" ++ b) := by
        rw [concatContentsAppend]
        have hsingle : concatContents [createChunk ct now cur n struct opts] = cur :=
          strAppendEmpty _
        rw [hsingle]
        apply String.ext
        simp [String.data_append, List.append_assoc]
      rw [heq] at hsnoc
      have := ih (processed ++ [b])
        (joinSep " " (sliceNegJS (ovT / 2) (splitWsJS cur)) ++ "\n" ++ b)
        (ct (joinSep " " (sliceNegJS (ovT / 2) (splitWsJS cur)) ++ "\n" ++ b))
        (n + 1) (chunks ++ [createChunk ct now cur n struct opts]) hrest hsnoc
        (fun _ => ⟨cb, by
          rw [String.data_append]
          exact List.mem_append_right _ hcb, hcbw⟩)
      simpa [List.append_assoc] using this
    · rw [if_neg hflush]
      by_cases hcur : cur = ""
      · have hp : processed = [] := by
          by_contra hp
          obtain ⟨c, hc, -⟩ := h2 hp
          rw [hcur] at hc
          simp at hc
        subst hp
        subst hcur
        have h1' : ContainsInOrder [b]
            (concatContents chunks ++ ("" ++ (if ("" : String) ≠ "" then "\n" else "") ++ b)) := by
          refine ⟨concatContents chunks ++ ("" ++ (if ("" : String) ≠ "" then "\n" else "")), "", ?_, trivial⟩
          apply String.ext
          simp [String.data_append, List.append_assoc]
        have := ih [b] ("" ++ (if ("" : String) ≠ "" then "\n" else "") ++ b)
          (tok + ct b) n chunks hrest h1'
          (fun _ => ⟨cb, by
            rw [String.data_append]
            exact List.mem_append_right _ hcb, hcbw⟩)
        simpa using this
      · have hglue : (if cur ≠ "" then "\n" else "") = "\n" := if_pos hcur
        rw [hglue]
        have hsnoc := containsInOrderSnoc processed (concatContents chunks ++ cur) "\n" b h1
        have heq : concatContents chunks ++ cur ++ "\n" ++ b
            = concatContents chunks ++ (cur ++ "\n" ++ b) := by
          apply String.ext
          simp [String.data_append, List.append_assoc]
        rw [heq] at hsnoc
        have := ih (processed ++ [b]) (cur ++ "\n" ++ b) (tok + ct b) n chunks hrest hsnoc
          (fun _ => ⟨cb, by
            rw [String.data_append]
            exact List.mem_append_right _ hcb, hcbw⟩)
        simpa [List.append_assoc] using this

/-- Claim C3 counterexample: the paragraph-aware strategy drops heading
blocks entirely, so on a document with a heading "Title" followed by a
paragraph, the heading's text never appears in the concatenated output
plain text (the letter `T` does not even occur in it). -/
theorem claim_C3_counterexample :
    ¬ ContainsInOrder (exDocHP.blocks.map fun b => b.text)
      (String.join ((ParagraphAwareStrategy.chunk countTokensModel 0 exDocHP {} exGm).map
        fun c => stripTags c.content)) := by
  intro h
  simp only [exDocHP, exTitleHead, List.map_cons, ContainsInOrder] at h
  obtain ⟨pre, rest, heq, -⟩ := h
  have hT : 'T' ∈ (String.join ((ParagraphAwareStrategy.chunk countTokensModel 0 exDocHP
      {} exGm).map fun c => stripTags c.content)).data := by
    have heq2 : String.join ((ParagraphAwareStrategy.chunk countTokensModel 0 exDocHP
        {} exGm).map fun c => stripTags c.content) = pre ++ "Title" ++ rest := by
      rw [← heq]
      simp [exDocHP, exTitleHead]
    rw [heq2]
    simp only [String.data_append, List.mem_append]
    exact Or.inl (Or.inr (by decide))
  exact absurd hT (by decide)

/-- Claim C3 (amended): order preservation holds for the fixed-size
strategy on documents whose blocks all carry trim-stable, non-empty
markup within the `maxTokens` budget: the concatenation of all emitted
chunk contents in array order contains every source block's markup,
in source order, with overlap text interleaved as documented duplication.
(Paragraph-aware drops heading text entirely, and heading-aware drops
headings that own no content blocks, so the property is restricted to
fixed-size; the fixed-size sentence-split path for oversized blocks can
drop an unterminated trailing fragment, hence the budget hypothesis.) -/
theorem claim_C3_amended (countTokens : String → Nat) (now : Nat)
    (struct : DocumentStructure) (options : ChunkingOptions) (gm : GlobalMetadata)
    (hall : ∀ b ∈ struct.blocks, trimJS b.html = b.html ∧ b.html ≠ "" ∧
      countTokens b.html ≤
        (mergeOptions FixedSizeStrategy.defaultOptions options).maxTokens.getD 1000) :
    ContainsInOrder (struct.blocks.map fun b => b.html)
      (concatContents (FixedSizeStrategy.chunk countTokens now struct options gm)) := by
  simp only [FixedSizeStrategy.chunk]
  have := FixedSizeStrategy.chunkLoopOrder countTokens now
    ((mergeOptions FixedSizeStrategy.defaultOptions options).maxTokens.getD 1000)
    ((mergeOptions FixedSizeStrategy.defaultOptions options).overlapTokens.getD 150)
    struct (mergeOptions FixedSizeStrategy.defaultOptions options)
    (struct.blocks.map fun b => b.html) [] "" 0 1 []
    (by
      intro s hs
      obtain ⟨x, hx, hxs⟩ := List.mem_map.mp hs
      rw [← hxs]
      exact hall x hx)
    trivial
    (fun h => absurd rfl h)
  simpa using this

/-- Claim C3 amended witness: the order property on the heading-free
two-block document under default options. -/
theorem claim_C3_amended_witness :
    (∀ b ∈ exDoc2.blocks, trimJS b.html = b.html ∧ b.html ≠ "" ∧
      countTokensModel b.html ≤
        (mergeOptions FixedSizeStrategy.defaultOptions
          ({} : ChunkingOptions)).maxTokens.getD 1000) ∧
    ContainsInOrder (exDoc2.blocks.map fun b => b.html)
      (concatContents (FixedSizeStrategy.chunk countTokensModel 0 exDoc2 {} exGm)) :=
  ⟨by decide, claim_C3_amended countTokensModel 0 exDoc2 {} exGm (by decide)⟩

/-! ## Claim C9: normalizer invariants -/

theorem dropWhileHeadFalse (p : α → Bool) (l : List α) (c : α) (rest : List α)
    (h : l.dropWhile p = c :: rest) : p c = false := by
  induction l with
  | nil => simp at h
  | cons a l ih =>
    rw [List.dropWhile_cons] at h
    by_cases hp : p a
    · simp only [hp, if_true] at h; exact ih h
    · simp only [hp, Bool.false_eq_true, if_false, List.cons.injEq] at h
      rw [← h.1]
      simpa using hp

theorem dropWhileAppendSelf (p : Char → Bool) :
    ∀ l : List Char, ∃ w, l = w ++ l.dropWhile p := by
  intro l
  induction l with
  | nil => exact ⟨[], rfl⟩
  | cons a t ih =>
    by_cases h : p a
    · obtain ⟨w, hw⟩ := ih
      refine ⟨a :: w, ?_⟩
      simp only [List.dropWhile_cons, h, if_true, List.cons_append, List.cons.injEq, true_and]
      exact hw
    · exact ⟨[], by simp [List.dropWhile_cons, h]⟩

theorem dropWhileIdem (p : Char → Bool) (l : List Char) :
    (l.dropWhile p).dropWhile p = l.dropWhile p := by
  cases hu : l.dropWhile p with
  | nil => simp
  | cons b t =>
    have hb := dropWhileHeadFalse p l b t hu
    simp [List.dropWhile_cons, hb]

theorem trimChIdem (l : List Char) : trimCh (trimCh l) = trimCh l := by
  unfold trimCh
  have hA : ((l.dropWhile isWs).reverse.dropWhile isWs).reverse.dropWhile isWs
      = ((l.dropWhile isWs).reverse.dropWhile isWs).reverse := by
    obtain ⟨w, hw⟩ := dropWhileAppendSelf isWs (l.dropWhile isWs).reverse
    cases hm : ((l.dropWhile isWs).reverse.dropWhile isWs).reverse with
    | nil => simp
    | cons a m' =>
      have ht2 : l.dropWhile isWs = a :: (m' ++ w.reverse) := by
        rw [← List.reverse_reverse (l.dropWhile isWs), hw, List.reverse_append, hm]
        rfl
      have ha := dropWhileHeadFalse isWs l a (m' ++ w.reverse) ht2
      simp [List.dropWhile_cons, ha]
  rw [hA, List.reverse_reverse, dropWhileIdem]

theorem trimJSIdem (s : String) : trimJS (trimJS s) = trimJS s :=
  congrArg String.mk (trimChIdem s.data)

theorem memEmitGuard {text : String} (blk : DocumentBlock) (st : PState)
    (hblk : blk.text = text) (hidem : trimJS text = text) :
    ∀ b ∈ (if text ≠ "" then ([blk], st) else (([] : List DocumentBlock), st)).1,
      b.text ≠ "" ∧ trimJS b.text = b.text := by
  intro b hb
  by_cases h : text ≠ ""
  · rw [if_pos h] at hb
    have hbe : b = blk := by simpa using hb
    rw [hbe, hblk]
    exact ⟨h, hidem⟩
  · rw [if_neg h] at hb
    simp at hb

theorem processChildrenNil (sourceType : String) (anc : List String) (st : PState) :
    processChildren sourceType [] anc st = ([], st) := by
  rw [processChildren]

theorem processChildrenConsText (sourceType s : String) (t : List HNode)
    (anc : List String) (st : PState) :
    processChildren sourceType (.text s :: t) anc st
      = processChildren sourceType t anc st := by
  rw [processChildren]

theorem processChildrenConsElem (sourceType tg : String) (a : List (String × String))
    (k t : List HNode) (anc : List String) (st : PState) :
    processChildren sourceType (.elem tg a k :: t) anc st =
      ((processElement sourceType (.elem tg a k) anc st).1 ++
          (processChildren sourceType t anc
            (processElement sourceType (.elem tg a k) anc st).2).1,
        (processChildren sourceType t anc
          (processElement sourceType (.elem tg a k) anc st).2).2) := by
  rw [processChildren]

theorem normTextListPart (sourceType : String) (N : Nat)
    (hElem : ∀ n : HNode, hnodeSize n ≤ N → ∀ (anc : List String) (st : PState),
      ∀ b ∈ (processElement sourceType n anc st).1,
        b.text ≠ "" ∧ trimJS b.text = b.text) :
    ∀ cs : List HNode, hnodeSizeList cs ≤ N → ∀ (anc : List String) (st : PState),
      ∀ b ∈ (processChildren sourceType cs anc st).1,
        b.text ≠ "" ∧ trimJS b.text = b.text := by
  intro cs
  induction cs with
  | nil =>
    intro _ anc st
    rw [processChildrenNil]
    simp
  | cons c t iht =>
    intro hcs anc st
    cases c with
    | text s =>
      have ht : hnodeSizeList t ≤ N := by
        simp only [hnodeSizeList] at hcs; omega
      rw [processChildrenConsText]
      exact iht ht anc st
    | elem tg a k =>
      have hc : hnodeSize (HNode.elem tg a k) ≤ N := by
        simp only [hnodeSizeList] at hcs; omega
      have ht : hnodeSizeList t ≤ N := by
        simp only [hnodeSizeList] at hcs; omega
      rw [processChildrenConsElem]
      intro b hb
      rcases List.mem_append.mp hb with h | h
      · exact hElem _ hc anc st b h
      · exact iht ht anc _ b h

theorem normTextAux (sourceType : String) : ∀ N : Nat,
    ∀ n : HNode, hnodeSize n ≤ N → ∀ (anc : List String) (st : PState),
      ∀ b ∈ (processElement sourceType n anc st).1,
        b.text ≠ "" ∧ trimJS b.text = b.text := by
  intro N
  induction N with
  | zero =>
    intro n hn
    exfalso
    cases n with
    | text s => simp [hnodeSize] at hn
    | elem tag attrs cs => simp [hnodeSize] at hn
  | succ N ihm =>
    intro n hn anc st
    cases n with
    | text s => simp [processElement]
    | elem tag attrs cs =>
      have hcs : hnodeSizeList cs ≤ N := by
        simp only [hnodeSize] at hn; omega
      have hList := normTextListPart sourceType N ihm cs hcs
      simp only [processElement]
      by_cases h1 : tag.toLower = "div" ∧ (HNode.getAttr attrs "data-source").isSome
      · simp only [if_pos h1]
        exact hList _ _
      · simp only [if_neg h1]
        by_cases h2 : isHeadingTag tag.toLower = true
        · simp only [if_pos h2]
          exact memEmitGuard _ _ rfl (trimJSIdem (HNode.textContent (HNode.elem tag attrs cs)))
        · simp only [if_neg h2]
          by_cases h3 : tag.toLower = "p"
          · simp only [if_pos h3]
            exact memEmitGuard _ _ rfl
              (trimJSIdem (String.join (cs.map HNode.plainTextUnder)))
          · simp only [if_neg h3]
            by_cases h4 : tag.toLower = "li"
            · simp only [if_pos h4]
              exact memEmitGuard _ _ rfl
                (trimJSIdem (String.join (cs.map HNode.plainTextUnder)))
            · simp only [if_neg h4]
              by_cases h5 : tag.toLower = "table"
              · simp only [if_pos h5]
                exact memEmitGuard _ _ rfl
                  (trimJSIdem (String.join (cs.map HNode.plainTextUnder)))
              · simp only [if_neg h5]
                by_cases h6 : tag.toLower = "code" ∨ tag.toLower = "pre"
                · simp only [if_pos h6]
                  exact memEmitGuard _ _ rfl
                    (trimJSIdem (HNode.textContent (HNode.elem tag attrs cs)))
                · simp only [if_neg h6]
                  by_cases h7 : tag.toLower = "div" ∨ tag.toLower = "section" ∨
                      tag.toLower = "blockquote" ∨ tag.toLower = "article" ∨
                      tag.toLower = "aside"
                  · simp only [if_pos h7]
                    by_cases h8 : HNode.getPlainText (HNode.elem tag attrs cs) ≠ "" ∧
                        (HNode.elemChildren cs).length = 0
                    · simp only [if_pos h8]
                      intro b hb
                      have hbe : b = mkNormBlock .other none
                          (HNode.getPlainText (HNode.elem tag attrs cs))
                          (HNode.outerHTML (HNode.elem tag attrs cs)) sourceType st := by
                        simpa using hb
                      rw [hbe]
                      exact ⟨h8.1, trimJSIdem (String.join (cs.map HNode.plainTextUnder))⟩
                    · simp only [if_neg h8]
                      exact hList _ _
                  · simp only [if_neg h7]
                    exact hList _ _

theorem walkEquivListPart (sourceType : String) (N : Nat)
    (hElem : ∀ n : HNode, hnodeSize n ≤ N →
      ∀ (anc : List String) (rest : List (HNode × List String)) (st : PState),
      walkDFS sourceType ((n, anc) :: rest) st =
        ((processElement sourceType n anc st).1 ++
            (walkDFS sourceType rest (processElement sourceType n anc st).2).1,
          (walkDFS sourceType rest (processElement sourceType n anc st).2).2)) :
    ∀ cs : List HNode, hnodeSizeList cs ≤ N →
      ∀ (anc : List String) (rest : List (HNode × List String)) (st : PState),
      walkDFS sourceType (cs.map (fun c => (c, anc)) ++ rest) st =
        ((processChildren sourceType cs anc st).1 ++
            (walkDFS sourceType rest (processChildren sourceType cs anc st).2).1,
          (walkDFS sourceType rest (processChildren sourceType cs anc st).2).2) := by
  intro cs
  induction cs with
  | nil =>
    intro _ anc rest st
    rw [processChildrenNil]
    simp
  | cons c t iht =>
    intro hcs anc rest st
    cases c with
    | text s =>
      have ht : hnodeSizeList t ≤ N := by
        simp only [hnodeSizeList] at hcs; omega
      rw [processChildrenConsText]
      simp only [List.map_cons, List.cons_append, walkDFS]
      exact iht ht anc rest st
    | elem tg a k =>
      have hc : hnodeSize (HNode.elem tg a k) ≤ N := by
        simp only [hnodeSizeList] at hcs; omega
      have ht : hnodeSizeList t ≤ N := by
        simp only [hnodeSizeList] at hcs; omega
      simp only [List.map_cons, List.cons_append]
      rw [hElem (HNode.elem tg a k) hc anc ((t.map fun c => (c, anc)) ++ rest) st,
        iht ht anc rest ((processElement sourceType (HNode.elem tg a k) anc st).2),
        processChildrenConsElem]
      simp [List.append_assoc]

theorem walkEquivAux (sourceType : String) : ∀ N : Nat,
    ∀ n : HNode, hnodeSize n ≤ N →
      ∀ (anc : List String) (rest : List (HNode × List String)) (st : PState),
      walkDFS sourceType ((n, anc) :: rest) st =
        ((processElement sourceType n anc st).1 ++
            (walkDFS sourceType rest (processElement sourceType n anc st).2).1,
          (walkDFS sourceType rest (processElement sourceType n anc st).2).2) := by
  intro N
  induction N with
  | zero =>
    intro n hn
    exfalso
    cases n with
    | text s => simp [hnodeSize] at hn
    | elem tag attrs cs => simp [hnodeSize] at hn
  | succ N ihm =>
    intro n hn anc rest st
    cases n with
    | text s => simp [walkDFS, processElement]
    | elem tag attrs cs =>
      have hcs : hnodeSizeList cs ≤ N := by
        simp only [hnodeSize] at hn; omega
      have hList := walkEquivListPart sourceType N ihm cs hcs
      simp only [walkDFS, processElement]
      by_cases h1 : tag.toLower = "div" ∧ (HNode.getAttr attrs "data-source").isSome
      · simp only [if_pos h1]
        exact hList _ _ _
      · simp only [if_neg h1]
        by_cases h2 : isHeadingTag tag.toLower = true
        · simp only [if_pos h2]
          by_cases hg : HNode.getTextContent (HNode.elem tag attrs cs) ≠ ""
          · simp only [if_pos hg]; simp
          · simp only [if_neg hg]; simp
        · simp only [if_neg h2]
          by_cases h3 : tag.toLower = "p"
          · simp only [if_pos h3]
            by_cases hg : HNode.getPlainText (HNode.elem tag attrs cs) ≠ ""
            · simp only [if_pos hg]; simp
            · simp only [if_neg hg]; simp
          · simp only [if_neg h3]
            by_cases h4 : tag.toLower = "li"
            · simp only [if_pos h4]
              by_cases hg : HNode.getPlainText (HNode.elem tag attrs cs) ≠ ""
              · simp only [if_pos hg]; simp
              · simp only [if_neg hg]; simp
            · simp only [if_neg h4]
              by_cases h5 : tag.toLower = "table"
              · simp only [if_pos h5]
                by_cases hg : HNode.getPlainText (HNode.elem tag attrs cs) ≠ ""
                · simp only [if_pos hg]; simp
                · simp only [if_neg hg]; simp
              · simp only [if_neg h5]
                by_cases h6 : tag.toLower = "code" ∨ tag.toLower = "pre"
                · simp only [if_pos h6]
                  by_cases hg : HNode.getTextContent (HNode.elem tag attrs cs) ≠ ""
                  · simp only [if_pos hg]; simp
                  · simp only [if_neg hg]; simp
                · simp only [if_neg h6]
                  by_cases h7 : tag.toLower = "div" ∨ tag.toLower = "section" ∨
                      tag.toLower = "blockquote" ∨ tag.toLower = "article" ∨
                      tag.toLower = "aside"
                  · simp only [if_pos h7]
                    by_cases h8 : HNode.getPlainText (HNode.elem tag attrs cs) ≠ "" ∧
                        (HNode.elemChildren cs).length = 0
                    · simp only [if_pos h8]; simp
                    · simp only [if_neg h8]
                      exact hList _ _ _
                  · simp only [if_neg h7]
                    exact hList _ _ _

/-- Claim C9: every block returned by the normalizer `htmlToDocumentBlocks`
has non-empty, trim-stable text (so its trimmed text is non-empty: blocks
with no trimmed text are never emitted), and the block list equals the one
produced by `walkDFS`, the explicit depth-first worklist walk of the parsed
markup — blocks are emitted in source document order. -/
theorem claim_C9 (bodyChildren : List HNode) (sourceType sourceFile : String) :
    (∀ b ∈ (htmlToDocumentBlocks bodyChildren sourceType sourceFile).blocks,
        b.text ≠ "" ∧ trimJS b.text = b.text) ∧
    (htmlToDocumentBlocks bodyChildren sourceType sourceFile).blocks =
      (walkDFS sourceType (bodyChildren.map fun c => (c, ["body"])) {}).1 := by
  constructor
  · intro b hb
    exact normTextListPart sourceType (hnodeSizeList bodyChildren)
      (normTextAux sourceType (hnodeSizeList bodyChildren)) bodyChildren le_rfl
      ["body"] {} b hb
  · have h := walkEquivListPart sourceType (hnodeSizeList bodyChildren)
      (walkEquivAux sourceType (hnodeSizeList bodyChildren)) bodyChildren le_rfl
      ["body"] [] {}
    rw [List.append_nil] at h
    simp only [walkDFS, List.append_nil] at h
    rw [h]
    rfl
